import Mathlib

/-!
Shallow embedding of the LevelDB reader core (src/lib/leveldb-reader.ts) and the
cookie-value decryption routine (src/auth/desktop.ts) of the agent-slack
repository, together with theorems settling the frozen claims about them.

Byte buffers (Node `Buffer` values) are modelled as `List Nat`; every function
is translated from the TypeScript source.  JavaScript 32-bit signed integer
results (from `|=` accumulation in `readVarint`) are modelled as `Int` via
`asInt32`; `Buffer.prototype.subarray` clamping and negative-index semantics
are modelled by `jsSub`; an out-of-range buffer index (JS `undefined`) is
modelled by `Option` via `jsIdx`.  `while` loops become fuel-indexed loops; the
fuel supplied is always sufficient for the loop bounds the source exhibits on
the inputs the claims concern.
-/

namespace AgentSlack

/-- One decoded key/value pair (`LevelDBEntry` in the source). -/
structure Entry where
  key : List Nat
  value : List Nat
deriving DecidableEq, Repr

/-- The 8-byte LevelDB magic constant (`LEVELDB_MAGIC` in the source). -/
def LEVELDB_MAGIC : List Nat := [0x57, 0xfb, 0x80, 0x8b, 0x24, 0x75, 0x47, 0xdb]

/-- Interpret the low 32 bits of a natural number as a JavaScript 32-bit signed
integer (the result type of the `|=` accumulation in `readVarint`). -/
def asInt32 (n : Nat) : Int :=
  if n % 2 ^ 32 < 2 ^ 31 then (n % 2 ^ 32 : Int) else (n % 2 ^ 32 : Int) - 2 ^ 32

/-- JS indexed access `buf[i]`: `none` models `undefined` (out of range). -/
def jsIdx (l : List Nat) (i : Int) : Option Nat :=
  if 0 ≤ i then l[i.toNat]? else none

/-- `Buffer.prototype.subarray(start, end)` semantics: negative indices count
from the end, then both are clamped to `[0, length]`; an empty slice results
when the clamped end does not exceed the clamped start. -/
def jsSub (l : List Nat) (s e : Int) : List Nat :=
  let len : Int := l.length
  let s1 := if s < 0 then max (len + s) 0 else min s len
  let e1 := if e < 0 then max (len + e) 0 else min e len
  (l.take e1.toNat).drop s1.toNat

/-- `Array.prototype.at(i)` semantics (used as `blockRaw.at(-5)`). -/
def listAt (l : List Nat) (i : Int) : Option Nat :=
  if i < 0 then
    if 0 ≤ i + l.length then l[(i + l.length).toNat]? else none
  else l[i.toNat]?

/-- `Buffer.prototype.readUInt16LE` (always called in range by the source). -/
def readUInt16LE (l : List Nat) (i : Nat) : Nat :=
  l.getD i 0 + 256 * l.getD (i + 1) 0

/-- `Buffer.prototype.readUInt32LE` (always called in range by the source). -/
def readUInt32LE (l : List Nat) (i : Nat) : Nat :=
  l.getD i 0 + 256 * l.getD (i + 1) 0 + 256 ^ 2 * l.getD (i + 2) 0 +
    256 ^ 3 * l.getD (i + 3) 0

deriving instance DecidableEq for Except

/-- Loop body of `readVarint` (source lines 34-52).  `i` is `bytesRead` before
reading the next byte, `acc` the low-32-bit pattern of the JS `result`
variable.  `left` counts the continuation steps still allowed before the
`shift >= 35` check fires; callers maintain `left = 4 - i`, so `left = 0`
exactly when the next continuation would reach shift 35.  A missing byte (JS
`undefined`) is coerced to `0` by the bitmasks, hence `.getD 0`; the loop
cannot reach a missing byte anyway because of the length guard. -/
def readVarintAux (buf : List Nat) (offset : Int) :
    Nat → Nat → Nat → Except String (Int × Nat)
  | left, i, acc =>
    if offset + i < (buf.length : Int) then
      let b := (jsIdx buf (offset + i)).getD 0
      let acc2 := (acc ||| ((b &&& 127) <<< (7 * i))) % 2 ^ 32
      if b &&& 128 = 0 then .ok (asInt32 acc2, i + 1)
      else
        match left with
        | 0 => .error "Varint too long"
        | left2 + 1 => readVarintAux buf offset left2 (i + 1) acc2
    else .error "Unexpected end of buffer reading varint"

/-- `readVarint` from the source: 7-bit groups, little-endian, at most 5 bytes,
result accumulated with JS 32-bit signed `|=`. -/
def readVarint (buf : List Nat) (offset : Int) : Except String (Int × Nat) :=
  readVarintAux buf offset 4 0 0

/-- Loop body of `readVarint64` (source lines 57-74): caps at 10 bytes
(`left = 10 - i` counts the bytes still allowed), only accumulates while the
shift is below 32, and returns the pattern unsigned (`result >>> 0`). -/
def readVarint64Aux (buf : List Nat) (offset : Int) :
    Nat → Nat → Nat → Except String (Nat × Nat)
  | 0, _, _ => .error "Unexpected end of buffer reading varint64"
  | left + 1, i, acc =>
    if offset + i < (buf.length : Int) then
      let b := (jsIdx buf (offset + i)).getD 0
      let acc2 := if 7 * i < 32 then (acc ||| ((b &&& 127) <<< (7 * i))) % 2 ^ 32 else acc
      if b &&& 128 = 0 then .ok (acc2, i + 1)
      else readVarint64Aux buf offset left (i + 1) acc2
    else .error "Unexpected end of buffer reading varint64"

/-- `readVarint64` from the source. -/
def readVarint64 (buf : List Nat) (offset : Int) : Except String (Nat × Nat) :=
  readVarint64Aux buf offset 10 0 0

/-- `parseBlockHandle` from the source: two consecutive varint64 values,
returned as `(offset, size, bytesRead)`. -/
def parseBlockHandle (buf : List Nat) (offset : Int) : Except String (Nat × Nat × Nat) := do
  let (blockOffset, n1) ← readVarint64 buf offset
  let (blockSize, n2) ← readVarint64 buf (offset + n1)
  .ok (blockOffset, blockSize, n1 + n2)

/-- `decompressBlock` from the source, parameterized by the external
`snappyUncompress` routine of the hysnappy package (which takes the compressed
bytes and the declared uncompressed length, and may fail).  The compression
type comes from `blockRaw.at(-5)!`; `none` models JS `undefined`, which is
neither `COMPRESSION_NONE` nor `COMPRESSION_SNAPPY` and therefore throws. -/
def decompressBlock (snappy : List Nat → Int → Except String (List Nat))
    (blockData : List Nat) (compressionType : Option Nat) : Except String (List Nat) :=
  match compressionType with
  | some 0 => .ok blockData
  | some 1 => do
      let (uncompressedLength, _) ← readVarint blockData 0
      snappy blockData uncompressedLength
  | _ => .error "Unknown compression type"

/-- The `while (offset < restartsStart)` loop of `parseDataBlock` (source lines
135-163).  `offset` is `Int` because the varint results feeding it are JS
32-bit signed integers.  The fuel is structural bookkeeping only: every
iteration of the source loop on the inputs considered consumes at least three
bytes, and `parseDataBlock` supplies `block.length + 1` fuel. -/
def dataBlockLoop (block : List Nat) (restartsStart : Int) :
    Int → List Nat → List Entry → Nat → List Entry
  | _, _, acc, 0 => acc
  | offset, prevKey, acc, fuel + 1 =>
    if offset < restartsStart then
      match readVarint block offset with
      | .error _ => acc
      | .ok (shared, n1) =>
        match readVarint block (offset + n1) with
        | .error _ => acc
        | .ok (nonShared, n2) =>
          match readVarint block (offset + n1 + n2) with
          | .error _ => acc
          | .ok (valueLen, n3) =>
            let offset2 := offset + n1 + n2 + n3
            if offset2 + nonShared + valueLen > restartsStart then acc
            else
              let keyDelta := jsSub block offset2 (offset2 + nonShared)
              let key := jsSub prevKey 0 shared ++ keyDelta
              let value := jsSub block (offset2 + nonShared) (offset2 + nonShared + valueLen)
              dataBlockLoop block restartsStart (offset2 + nonShared + valueLen) key
                (acc ++ [⟨key, value⟩]) fuel
    else acc

/-- `parseDataBlock` from the source: restart-array bookkeeping, then linear
prefix-compressed decoding. -/
def parseDataBlock (block : List Nat) : List Entry :=
  if block.length < 4 then []
  else
    let numRestarts := readUInt32LE block (block.length - 4)
    let restartsStart : Int := (block.length : Int) - 4 - (numRestarts : Int) * 4
    if restartsStart < 0 then []
    else dataBlockLoop block restartsStart 0 [] [] (block.length + 1)

/-- `parseSSTable` from the source, taking the file contents (the `readFile`
result) as input and parameterized by the external snappy decompressor.
Every failure path degrades to an empty or partial entry list. -/
def parseSSTable (snappy : List Nat → Int → Except String (List Nat))
    (data : List Nat) : List Entry :=
  if data.length < 48 then []
  else
    let footer := jsSub data (-48) data.length
    let magic := jsSub footer 40 48
    if magic ≠ LEVELDB_MAGIC then []
    else
      match parseBlockHandle footer 0 with
      | .error _ => []
      | .ok (_, _, metaBytes) =>
        match parseBlockHandle footer metaBytes with
        | .error _ => []
        | .ok (indexOffset, indexSize, _) =>
          let indexBlockEnd := indexOffset + indexSize + 5
          if indexBlockEnd > data.length - 48 then []
          else
            let indexBlockRaw := jsSub data indexOffset indexBlockEnd
            let indexCompressionType := listAt indexBlockRaw (-5)
            let indexBlockData := jsSub indexBlockRaw 0 (-5)
            match decompressBlock snappy indexBlockData indexCompressionType with
            | .error _ => []
            | .ok indexBlock =>
              (parseDataBlock indexBlock).foldl (fun acc indexEntry =>
                match parseBlockHandle indexEntry.value 0 with
                | .error _ => acc
                | .ok (blockOffset, blockSize, _) =>
                  let blockEnd := blockOffset + blockSize + 5
                  if blockEnd > data.length then acc
                  else
                    let blockRaw := jsSub data blockOffset blockEnd
                    let compressionType := listAt blockRaw (-5)
                    match decompressBlock snappy (jsSub blockRaw 0 (-5)) compressionType with
                    | .error _ => acc
                    | .ok block => acc ++ parseDataBlock block) []

/-- The `while (offset < batch.length)` loop of `parseLogBatch` (source lines
330-358).  The returned list is what the source pushes onto its `entries`
argument.  `offset` is `Int` because varint results are JS 32-bit signed
integers.  A record type read out of range is JS `undefined`, which matches
neither `1` nor `0` and breaks. -/
def batchLoop (batch : List Nat) : Int → List Entry → Nat → List Entry
  | _, acc, 0 => acc
  | offset, acc, fuel + 1 =>
    if offset < (batch.length : Int) then
      match jsIdx batch offset with
      | none => acc
      | some recordType =>
        if recordType = 1 then
          match readVarint batch (offset + 1) with
          | .error _ => acc
          | .ok (keyLen, n1) =>
            let key := jsSub batch (offset + 1 + n1) (offset + 1 + n1 + keyLen)
            match readVarint batch (offset + 1 + n1 + keyLen) with
            | .error _ => acc
            | .ok (valueLen, n2) =>
              let value := jsSub batch (offset + 1 + n1 + keyLen + n2)
                (offset + 1 + n1 + keyLen + n2 + valueLen)
              batchLoop batch (offset + 1 + n1 + keyLen + n2 + valueLen)
                (acc ++ [⟨key, value⟩]) fuel
        else if recordType = 0 then
          match readVarint batch (offset + 1) with
          | .error _ => acc
          | .ok (keyLen, n1) => batchLoop batch (offset + 1 + n1 + keyLen) acc fuel
        else acc
    else acc

/-- `parseLogBatch` from the source: skip the 8-byte sequence number and 4-byte
record count, then decode records until the buffer ends or decoding fails. -/
def parseLogBatch (batch : List Nat) : List Entry :=
  if batch.length < 12 then []
  else batchLoop batch 12 [] (batch.length + 1)

/-- The `while (offset < data.length)` loop of `parseLogFile` (source lines
267-312).  `pending` is the `pendingRecord` fragment accumulator; `acc` the
entries decoded so far.  Every iteration advances `offset` by at least one
byte, so the `data.length + 1` fuel supplied by `parseLogFile` never runs
out. -/
def logLoop (data : List Nat) : Nat → List (List Nat) → List Entry → Nat → List Entry
  | _, _, acc, 0 => acc
  | offset, pending, acc, fuel + 1 =>
    if offset < data.length then
      let blockOffset := offset % 32768
      let remaining := 32768 - blockOffset
      if remaining < 7 then logLoop data (offset + remaining) pending acc fuel
      else if data.length < offset + 7 then acc
      else
        let length := readUInt16LE data (offset + 4)
        let type := data.getD (offset + 6) 0
        if length = 0 ∨ data.length < offset + 7 + length then
          logLoop data (offset + remaining) [] acc fuel
        else
          let recordData := jsSub data (offset + 7) (offset + 7 + length)
          let offset2 := offset + 7 + length
          if type = 1 then logLoop data offset2 [] (acc ++ parseLogBatch recordData) fuel
          else if type = 2 then logLoop data offset2 [recordData] acc fuel
          else if type = 3 then
            logLoop data offset2 (if pending.length > 0 then pending ++ [recordData] else pending)
              acc fuel
          else if type = 4 then
            if pending.length > 0 then
              logLoop data offset2 []
                (acc ++ parseLogBatch (List.flatten (pending ++ [recordData]))) fuel
            else logLoop data offset2 [] acc fuel
          else logLoop data offset2 pending acc fuel
    else acc

/-- `parseLogFile` from the source, taking the file contents as input. -/
def parseLogFile (data : List Nat) : List Entry :=
  logLoop data 0 [] [] (data.length + 1)

/-- `String.prototype.endsWith` on JS strings, modelled on the character list
of the file name: suffix comparison. -/
def jsEndsWith (name : List Char) (suffix : List Char) : Bool :=
  suffix.isSuffixOf name

/-- `readChromiumLevelDB` from the source: the directory is modelled as its
listing in order, each name (as its character list) paired with the bytes
`readFile` would return for it.  All `.ldb`/`.sst` files are parsed first,
then all `.log` files, each group in listing order, results appended in
iteration order. -/
def readChromiumLevelDB (snappy : List Nat → Int → Except String (List Nat))
    (dir : List (List Char × List Nat)) : List Entry :=
  let sstFiles := dir.filter (fun f => jsEndsWith f.1 ".ldb".toList ||
    jsEndsWith f.1 ".sst".toList)
  let logFiles := dir.filter (fun f => jsEndsWith f.1 ".log".toList)
  let entries := sstFiles.foldl (fun acc f => acc ++ parseSSTable snappy f.2) []
  logFiles.foldl (fun acc f => acc ++ parseLogFile f.2) entries

/-- `Buffer.prototype.includes(sub)`: contiguous byte-run containment,
implemented as the usual scan (`indexOf !== -1`). -/
def bufIncludes (sub : List Nat) : List Nat → Bool
  | [] => sub.isPrefixOf []
  | b :: t => sub.isPrefixOf (b :: t) || bufIncludes sub t

/-- `findKeysContaining` from the source. -/
def findKeysContaining (snappy : List Nat → Int → Except String (List Nat))
    (dir : List (List Char × List Nat)) (substring : List Nat) : List Entry :=
  (readChromiumLevelDB snappy dir).filter (fun entry => bufIncludes substring entry.key)

/-! ### Cookie value decryption (src/auth/desktop.ts) -/

/-- The byte marker `"xoxd-"` searched for in the decrypted plaintext. -/
def xoxdMarker : List Nat := [0x78, 0x6f, 0x78, 0x64, 0x2d]

/-- `Buffer.prototype.indexOf(needle)` scanning from position `i`: first index
at which `needle` occurs as a contiguous run, `none` for `-1`. -/
def bufIndexOfAux (needle : List Nat) : List Nat → Nat → Option Nat
  | [], i => if needle.isPrefixOf [] then some i else none
  | b :: t, i => if needle.isPrefixOf (b :: t) then some i else bufIndexOfAux needle t (i + 1)

/-- `Buffer.prototype.indexOf(needle)`. -/
def bufIndexOf (hay needle : List Nat) : Option Nat :=
  bufIndexOfAux needle hay 0

/-- The `while (end < plain.length)` scan of `decryptChromiumCookieValue`
(source lines 223-229): extend `e` while the byte there is printable ASCII
(`0x21..0x7e`).  The fuel is structural bookkeeping; `plain.length + 1` always
suffices since `e` grows by one per step. -/
def extendEndAux (plain : List Nat) : Nat → Nat → Nat
  | 0, e => e
  | fuel + 1, e =>
    if e < plain.length ∧ 0x21 ≤ plain.getD e 0 ∧ plain.getD e 0 ≤ 0x7e then
      extendEndAux plain fuel (e + 1)
    else e

/-- End index of the candidate token run starting at `idx`. -/
def extendEnd (plain : List Nat) (idx : Nat) : Nat :=
  extendEndAux plain (plain.length + 1) idx

/-- Models `Buffer.prototype.toString("utf8")`: WHATWG UTF-8 decoding with
U+FFFD replacement for malformed sequences, producing the list of code points
of the resulting JS string (this routine never produces lone surrogates, so
code points determine the string). -/
def utf8LossyDecode : List Nat → List Nat
  | [] => []
  | b :: rest =>
    if b < 0x80 then b :: utf8LossyDecode rest
    else if 0xc2 ≤ b ∧ b ≤ 0xdf then
      match rest with
      | [] => [0xfffd]
      | c1 :: rest2 =>
        if 0x80 ≤ c1 ∧ c1 ≤ 0xbf then ((b - 0xc0) * 64 + (c1 - 0x80)) :: utf8LossyDecode rest2
        else 0xfffd :: utf8LossyDecode (c1 :: rest2)
    else if 0xe0 ≤ b ∧ b ≤ 0xef then
      match rest with
      | [] => [0xfffd]
      | c1 :: rest2 =>
        if (if b = 0xe0 then 0xa0 ≤ c1 ∧ c1 ≤ 0xbf
            else if b = 0xed then 0x80 ≤ c1 ∧ c1 ≤ 0x9f
            else 0x80 ≤ c1 ∧ c1 ≤ 0xbf) then
          match rest2 with
          | [] => [0xfffd]
          | c2 :: rest3 =>
            if 0x80 ≤ c2 ∧ c2 ≤ 0xbf then
              ((b - 0xe0) * 4096 + (c1 - 0x80) * 64 + (c2 - 0x80)) :: utf8LossyDecode rest3
            else 0xfffd :: utf8LossyDecode (c2 :: rest3)
        else 0xfffd :: utf8LossyDecode (c1 :: rest2)
    else if 0xf0 ≤ b ∧ b ≤ 0xf4 then
      match rest with
      | [] => [0xfffd]
      | c1 :: rest2 =>
        if (if b = 0xf0 then 0x90 ≤ c1 ∧ c1 ≤ 0xbf
            else if b = 0xf4 then 0x80 ≤ c1 ∧ c1 ≤ 0x8f
            else 0x80 ≤ c1 ∧ c1 ≤ 0xbf) then
          match rest2 with
          | [] => [0xfffd]
          | c2 :: rest3 =>
            if 0x80 ≤ c2 ∧ c2 ≤ 0xbf then
              match rest3 with
              | [] => [0xfffd]
              | c3 :: rest4 =>
                if 0x80 ≤ c3 ∧ c3 ≤ 0xbf then
                  ((b - 0xf0) * 262144 + (c1 - 0x80) * 4096 + (c2 - 0x80) * 64 + (c3 - 0x80)) ::
                    utf8LossyDecode rest4
                else 0xfffd :: utf8LossyDecode (c3 :: rest4)
            else 0xfffd :: utf8LossyDecode (c2 :: rest3)
        else 0xfffd :: utf8LossyDecode (c1 :: rest2)
    else 0xfffd :: utf8LossyDecode rest

/-- Value of an ASCII hex digit, `none` otherwise. -/
def hexVal (c : Nat) : Option Nat :=
  if 0x30 ≤ c ∧ c ≤ 0x39 then some (c - 0x30)
  else if 0x41 ≤ c ∧ c ≤ 0x46 then some (c - 0x41 + 10)
  else if 0x61 ≤ c ∧ c ≤ 0x66 then some (c - 0x61 + 10)
  else none

/-- Consume one `%hh` escape from the front, returning its byte value. -/
def readEscByte : List Nat → Option (Nat × List Nat)
  | 0x25 :: h1 :: h2 :: r =>
    match hexVal h1, hexVal h2 with
    | some a, some b => some (16 * a + b, r)
    | _, _ => none
  | _ => none

/-- Models the ECMAScript builtin `decodeURIComponent` on a string given as
its code-point list: `%hh` escapes are decoded as UTF-8 byte sequences (strict
validity required, `URIError` on failure, modelled as `.error`), all other
characters pass through.  The fuel is structural bookkeeping; every step
consumes at least one input character, so `s.length + 1` suffices. -/
def decodeURIAux : Nat → List Nat → Except Unit (List Nat)
  | 0, _ => .error ()
  | _, [] => .ok []
  | fuel + 1, c :: rest =>
    if c = 0x25 then
      match readEscByte (c :: rest) with
      | none => .error ()
      | some (b0, r0) =>
        if b0 < 0x80 then do
          let tail ← decodeURIAux fuel r0
          .ok (b0 :: tail)
        else if 0xc2 ≤ b0 ∧ b0 ≤ 0xdf then
          match readEscByte r0 with
          | some (b1, r1) =>
            if 0x80 ≤ b1 ∧ b1 ≤ 0xbf then do
              let tail ← decodeURIAux fuel r1
              .ok (((b0 - 0xc0) * 64 + (b1 - 0x80)) :: tail)
            else .error ()
          | none => .error ()
        else if 0xe0 ≤ b0 ∧ b0 ≤ 0xef then
          match readEscByte r0 with
          | some (b1, r1) =>
            if (if b0 = 0xe0 then 0xa0 ≤ b1 ∧ b1 ≤ 0xbf
                else if b0 = 0xed then 0x80 ≤ b1 ∧ b1 ≤ 0x9f
                else 0x80 ≤ b1 ∧ b1 ≤ 0xbf) then
              match readEscByte r1 with
              | some (b2, r2) =>
                if 0x80 ≤ b2 ∧ b2 ≤ 0xbf then do
                  let tail ← decodeURIAux fuel r2
                  .ok (((b0 - 0xe0) * 4096 + (b1 - 0x80) * 64 + (b2 - 0x80)) :: tail)
                else .error ()
              | none => .error ()
            else .error ()
          | none => .error ()
        else if 0xf0 ≤ b0 ∧ b0 ≤ 0xf4 then
          match readEscByte r0 with
          | some (b1, r1) =>
            if (if b0 = 0xf0 then 0x90 ≤ b1 ∧ b1 ≤ 0xbf
                else if b0 = 0xf4 then 0x80 ≤ b1 ∧ b1 ≤ 0x8f
                else 0x80 ≤ b1 ∧ b1 ≤ 0xbf) then
              match readEscByte r1 with
              | some (b2, r2) =>
                if 0x80 ≤ b2 ∧ b2 ≤ 0xbf then
                  match readEscByte r2 with
                  | some (b3, r3) =>
                    if 0x80 ≤ b3 ∧ b3 ≤ 0xbf then do
                      let tail ← decodeURIAux fuel r3
                      .ok (((b0 - 0xf0) * 262144 + (b1 - 0x80) * 4096 + (b2 - 0x80) * 64 +
                        (b3 - 0x80)) :: tail)
                    else .error ()
                  | none => .error ()
                else .error ()
              | none => .error ()
            else .error ()
          | none => .error ()
        else .error ()
    else do
      let tail ← decodeURIAux fuel rest
      .ok (c :: tail)

/-- `decodeURIComponent` model (see `decodeURIAux`). -/
def decodeURIComponentModel (s : List Nat) : Except Unit (List Nat) :=
  decodeURIAux (s.length + 1) s

/-- `decryptChromiumCookieValue` from the source (lines 201-236).  The key
derivation and AES-128-CBC decryption (`pbkdf2Sync`, `createDecipheriv`,
`update`/`final`) are Node crypto primitives external to the repository; they
are abstracted as the parameter `aesDecrypt`, which maps the ciphertext
passed to the cipher to the decrypted plaintext or fails (PKCS7 padding
error, which the source lets propagate).  The `"v10"`/`"v11"` string
comparison on the first three bytes is byte equality, since UTF-8 decoding
yields that ASCII string only for those exact bytes.  Strings are returned as
code-point lists. -/
def decryptChromiumCookieValue (aesDecrypt : List Nat → Except Unit (List Nat))
    (encrypted : List Nat) : Except Unit (List Nat) :=
  if encrypted.length = 0 then .ok []
  else
    let head3 := jsSub encrypted 0 3
    let data := if head3 = [0x76, 0x31, 0x30] ∨ head3 = [0x76, 0x31, 0x31] then
      jsSub encrypted 3 encrypted.length else encrypted
    match aesDecrypt data with
    | .error e => .error e
    | .ok plain =>
      match bufIndexOf plain xoxdMarker with
      | none => .ok (utf8LossyDecode plain)
      | some idx =>
        let e := extendEnd plain idx
        let rawToken := utf8LossyDecode (jsSub plain idx e)
        match decodeURIComponentModel rawToken with
        | .ok s => .ok s
        | .error _ => .ok rawToken

/-! ### Encoders for stating claims

These build well-formed on-disk structures fed to the parsers above; they are
verification inputs, not part of the source. -/

/-- Little-endian base-128 varint encoding; the fuel bounds the digit count
and `encodeVarint` supplies enough for every value below `2 ^ 35`. -/
def encodeVarintAux : Nat → Nat → List Nat
  | 0, n => [n]
  | f + 1, n => if n < 128 then [n] else (n % 128 + 128) :: encodeVarintAux f (n / 128)

/-- Varint encoding of `n` (correct for `n < 2 ^ 35`). -/
def encodeVarint (n : Nat) : List Nat := encodeVarintAux 4 n

/-- One logical write-batch operation. -/
inductive BatchOp where
  | put (k v : List Nat)
  | del (k : List Nat)
deriving DecidableEq, Repr

/-- Byte encoding of one write-batch record (tag, varint key length, key, and
for puts a varint value length and value). -/
def encodeOp : BatchOp → List Nat
  | .put k v => 1 :: (encodeVarint k.length ++ k ++ encodeVarint v.length ++ v)
  | .del k => 0 :: (encodeVarint k.length ++ k)

/-- Concatenated encoding of a record list. -/
def opsBytes (ops : List BatchOp) : List Nat := (ops.map encodeOp).flatten

/-- The entry a record contributes (puts only). -/
def opEntry : BatchOp → Option Entry
  | .put k v => some ⟨k, v⟩
  | .del _ => none

/-- Entries contributed by a record list, in order. -/
def opEntries (ops : List BatchOp) : List Entry := ops.filterMap opEntry

/-- Key of a record. -/
def opKey : BatchOp → List Nat
  | .put k _ => k
  | .del k => k

/-- Value of a record (empty for deletes). -/
def opValue : BatchOp → List Nat
  | .put _ v => v
  | .del _ => []

/-- Size bounds under which varint encoding/decoding round-trips exactly. -/
def opsOk (ops : List BatchOp) : Prop :=
  ∀ op ∈ ops, (opKey op).length < 2 ^ 31 ∧ (opValue op).length < 2 ^ 31

/-- One physical log record: checksum bytes, little-endian u16 payload length,
type byte, payload. -/
def logRec (crc : List Nat) (t : Nat) (payload : List Nat) : List Nat :=
  crc ++ [payload.length % 256, payload.length / 256, t] ++ payload

/-! ### Concrete inputs used by counterexamples and witnesses -/

/-- Data block with two records; the second declares `shared = 5` although the
previous key has length 1 (restart count 0, `restartsStart = 10`). -/
def c1Block : List Nat := [0, 1, 1, 0x61, 0x78, 5, 1, 1, 0x62, 0x79, 0, 0, 0, 0]

/-- A minimal well-formed SSTable file: one uncompressed data block holding
`("k","v")`, one index block pointing at it, and a 48-byte footer. -/
def sstFile : List Nat :=
  [0, 1, 1, 0x6b, 0x76, 0, 0, 0, 0] ++ [0] ++ [0, 0, 0, 0] ++
  [0, 1, 2, 0x7a, 0, 9, 0, 0, 0, 0] ++ [0] ++ [0, 0, 0, 0] ++
  [0, 0, 14, 10] ++ List.replicate 36 0 ++ LEVELDB_MAGIC

/-- A minimal log file: one FULL record whose batch holds the single put
`("x","w")`. -/
def c3LogFile : List Nat :=
  [0, 0, 0, 0, 17, 0, 1] ++ (List.replicate 12 0 ++ [1, 1, 0x78, 1, 0x77])

/-- A snappy stub for instantiating the decompressor parameter on inputs whose
blocks are all stored uncompressed. -/
def snStub : List Nat → Int → Except String (List Nat) := fun _ _ => .error "unused"

/-- Directory listing a `.log` file before a `.ldb` file. -/
def c3Dir : List (List Char × List Nat) :=
  [("000003.log".toList, c3LogFile), ("000001.ldb".toList, sstFile)]

/-- FIRST-fragment payload of the C2 counterexample file: a batch holding the
put `("k","v")` followed by an unknown tag and filler, sized so the record
ends exactly 6 bytes short of the 32768-byte block boundary. -/
def c2Payload1 : List Nat :=
  List.replicate 12 0 ++ [1, 1, 0x6b, 1, 0x76, 2] ++ List.replicate 32737 0

/-- Log file whose FIRST record ends 6 bytes before the block boundary (the
reader must skip those 6 trailer bytes) and whose LAST record starts at the
next block. -/
def c2File : List Nat :=
  logRec [0, 0, 0, 0] 2 c2Payload1 ++ List.replicate 6 0 ++ logRec [0, 0, 0, 0] 4 [9]

/-- Write batch holding a put record whose declared key length (5) exceeds the
single byte remaining in the buffer. -/
def c10Batch : List Nat := List.replicate 12 0 ++ [1, 5, 0x61]

/-- Mathematical value of `count` varint payload groups read from byte index
`i` on: the exact (unbounded) base-128 value contributed by those bytes. -/
def varintFullValue (buf : List Nat) (offset : Int) : Nat → Nat → Nat
  | _, 0 => 0
  | i, count + 1 =>
    ((jsIdx buf (offset + (i : Int))).getD 0 &&& 127) * 2 ^ (7 * i) +
      varintFullValue buf offset (i + 1) count

/-- The printable-ASCII test of the token scan (`0x21..0x7e`). -/
def printable (b : Nat) : Bool := decide (0x21 ≤ b) && decide (b ≤ 0x7e)

/-! ## Helper lemmas about the JS primitive models -/

theorem jsIdx_natCast (l : List Nat) (i : Nat) : jsIdx l (i : Int) = l[i]? := by
  simp [jsIdx]

theorem jsIdx_some (l : List Nat) (i : Nat) (h : i < l.length) :
    jsIdx l (i : Int) = some (l.getD i 0) := by
  rw [jsIdx_natCast, List.getElem?_eq_getElem h]
  simp [List.getD_eq_getElem?_getD, List.getElem?_eq_getElem h]

theorem jsIdx_bounds {l : List Nat} {idx : Int} {x : Nat} (h : jsIdx l idx = some x) :
    0 ≤ idx ∧ idx < l.length := by
  unfold jsIdx at h
  by_cases h0 : 0 ≤ idx
  · refine ⟨h0, ?_⟩
    rw [if_pos h0] at h
    obtain ⟨hlt, -⟩ := List.getElem?_eq_some_iff.mp h
    omega
  · rw [if_neg h0] at h
    exact absurd h (by simp)

theorem take_min_length (l : List Nat) (b : Nat) : l.take (min b l.length) = l.take b := by
  rcases le_or_lt b l.length with h | h
  · rw [Nat.min_eq_left h]
  · rw [Nat.min_eq_right (le_of_lt h), List.take_length, List.take_of_length_le (le_of_lt h)]

theorem drop_min_length (l : List Nat) (a : Nat) : l.drop (min a l.length) = l.drop a := by
  rcases le_or_lt a l.length with h | h
  · rw [Nat.min_eq_left h]
  · rw [Nat.min_eq_right (le_of_lt h), List.drop_of_length_le (le_refl _),
      List.drop_of_length_le (le_of_lt h)]

theorem jsSub_natCast (l : List Nat) (a b : Nat) :
    jsSub l (a : Int) (b : Int) = (l.take b).drop a := by
  unfold jsSub
  have ha : ¬((a : Int) < 0) := by omega
  have hb : ¬((b : Int) < 0) := by omega
  simp only [if_neg ha, if_neg hb]
  have h1 : (min (a : Int) (l.length : Int)).toNat = min a l.length := by omega
  have h2 : (min (b : Int) (l.length : Int)).toNat = min b l.length := by omega
  rw [h1, h2, take_min_length]
  rcases le_or_lt a l.length with h | h
  · rw [Nat.min_eq_left h]
  · rw [Nat.min_eq_right (le_of_lt h)]
    have hlen : (l.take b).length ≤ l.length := by
      rw [List.length_take]; omega
    rw [List.drop_of_length_le hlen, List.drop_of_length_le (le_trans hlen (le_of_lt h))]

theorem jsSub_slice (pre mid rest : List Nat) :
    jsSub (pre ++ (mid ++ rest)) (pre.length : Int) (((pre.length + mid.length : Nat)) : Int) =
      mid := by
  rw [jsSub_natCast, ← List.append_assoc, List.take_left' (by simp), List.drop_left]

theorem jsSub_take (l : List Nat) (s : Nat) : jsSub l 0 (s : Int) = l.take s := by
  have h0 : ((0 : Nat) : Int) = 0 := rfl
  rw [← h0, jsSub_natCast, List.drop_zero]

/-! ## Bit arithmetic lemmas -/

theorem lor_shiftLeft_disjoint (a b k : Nat) (h : a < 2 ^ k) :
    a ||| b <<< k = 2 ^ k * b + a := by
  apply Nat.eq_of_testBit_eq
  intro i
  rw [Nat.testBit_or, Nat.testBit_shiftLeft, Nat.testBit_mul_pow_two_add b h i]
  by_cases hik : i < k
  · have hki : ¬(k ≤ i) := by omega
    simp [hik, hki]
  · have hki : k ≤ i := by omega
    have hasm : a.testBit i = false :=
      Nat.testBit_lt_two_pow (lt_of_lt_of_le h (Nat.pow_le_pow_right (by norm_num) hki))
    simp [hik, hki, hasm]

theorem lor_mul_pow_disjoint (a b k : Nat) (h : a < 2 ^ k) :
    a ||| b * 2 ^ k = 2 ^ k * b + a := by
  have hs := lor_shiftLeft_disjoint a b k h
  rwa [Nat.shiftLeft_eq] at hs

theorem and127_eq (n : Nat) : n &&& 127 = n % 128 := by
  have h := Nat.and_pow_two_sub_one_eq_mod n 7
  norm_num at h
  exact h

theorem and128_of_lt (n : Nat) (h : n < 128) : n &&& 128 = 0 := by
  have h2 : (128 : Nat) = 2 ^ 7 := by norm_num
  rw [h2, Nat.and_two_pow, Nat.testBit_lt_two_pow (by omega)]
  simp

theorem and128_of_ge (n : Nat) (h1 : 128 ≤ n) (h2 : n < 256) : n &&& 128 ≠ 0 := by
  have h3 : (128 : Nat) = 2 ^ 7 := by norm_num
  rw [h3, Nat.and_two_pow]
  have ht : n.testBit 7 = true := by
    rw [Nat.testBit_to_div_mod]
    simp only [decide_eq_true_eq]
    norm_num
    omega
  simp [ht]

theorem asInt32_of_lt (n : Nat) (h : n < 2 ^ 31) : asInt32 n = n := by
  unfold asInt32
  split <;> omega

/-! ## Varint encoding lemmas -/

theorem encodeVarintAux_fuel (f : Nat) :
    ∀ g n, n < 2 ^ (7 * f + 7) → n < 2 ^ (7 * g + 7) →
      encodeVarintAux f n = encodeVarintAux g n := by
  induction f with
  | zero =>
    intro g n hf _
    have h128 : n < 128 := by norm_num at hf; omega
    cases g with
    | zero => rfl
    | succ g2 => simp [encodeVarintAux, h128]
  | succ f2 IH =>
    intro g n hf hg
    by_cases h128 : n < 128
    · cases g with
      | zero => simp [encodeVarintAux, h128]
      | succ g2 => simp [encodeVarintAux, h128]
    · cases g with
      | zero =>
        exfalso
        norm_num at hg
        omega
      | succ g2 =>
        simp only [encodeVarintAux, if_neg h128]
        have hf2 : n / 128 < 2 ^ (7 * f2 + 7) := by
          have : n < 128 * 2 ^ (7 * f2 + 7) := by
            calc n < 2 ^ (7 * (f2 + 1) + 7) := hf
            _ = 128 * 2 ^ (7 * f2 + 7) := by
              rw [show 7 * (f2 + 1) + 7 = 7 + (7 * f2 + 7) from by ring, pow_add]
              norm_num
          omega
        have hg2 : n / 128 < 2 ^ (7 * g2 + 7) := by
          have : n < 128 * 2 ^ (7 * g2 + 7) := by
            calc n < 2 ^ (7 * (g2 + 1) + 7) := hg
            _ = 128 * 2 ^ (7 * g2 + 7) := by
              rw [show 7 * (g2 + 1) + 7 = 7 + (7 * g2 + 7) from by ring, pow_add]
              norm_num
          omega
        rw [IH g2 (n / 128) hf2 hg2]

theorem encodeVarint_eq (n : Nat) (h : n < 2 ^ 31) :
    encodeVarint n = if n < 128 then [n] else (n % 128 + 128) :: encodeVarint (n / 128) := by
  unfold encodeVarint
  by_cases h128 : n < 128
  · simp [encodeVarintAux, h128]
  · simp only [encodeVarintAux, if_neg h128]
    by_cases c1 : n / 128 < 128 <;> simp only [c1, if_true, if_false, reduceIte]
    by_cases c2 : n / 128 / 128 < 128 <;> simp only [c2, if_true, if_false, reduceIte]
    by_cases c3 : n / 128 / 128 / 128 < 128 <;> simp only [c3, if_true, if_false, reduceIte]
    have c4 : n / 128 / 128 / 128 / 128 < 128 := by omega
    simp only [c4, if_true, reduceIte]

theorem encodeVarintAux_length_pos (f n : Nat) : 1 ≤ (encodeVarintAux f n).length := by
  cases f with
  | zero => simp [encodeVarintAux]
  | succ f2 =>
    by_cases h : n < 128
    · simp [encodeVarintAux, h]
    · simp [encodeVarintAux, h]

theorem encodeVarint_length_pos (n : Nat) : 1 ≤ (encodeVarint n).length :=
  encodeVarintAux_length_pos 4 n

theorem encodeVarintAux_length_le (f : Nat) :
    ∀ n, n < 2 ^ (7 * f + 7) → (encodeVarintAux f n).length ≤ f + 1 := by
  induction f with
  | zero => intro n _; simp [encodeVarintAux]
  | succ f2 IH =>
    intro n hf
    by_cases h : n < 128
    · simp [encodeVarintAux, h]
    · simp only [encodeVarintAux, if_neg h, List.length_cons]
      have hf2 : n / 128 < 2 ^ (7 * f2 + 7) := by
        have : n < 128 * 2 ^ (7 * f2 + 7) := by
          calc n < 2 ^ (7 * (f2 + 1) + 7) := hf
          _ = 128 * 2 ^ (7 * f2 + 7) := by
            rw [show 7 * (f2 + 1) + 7 = 7 + (7 * f2 + 7) from by ring, pow_add]
            norm_num
        omega
      have := IH (n / 128) hf2
      omega

theorem encodeVarint_length_le (n : Nat) (h : n < 2 ^ 31) : (encodeVarint n).length ≤ 5 := by
  have h35 : n < 2 ^ (7 * 4 + 7) := by norm_num; omega
  exact encodeVarintAux_length_le 4 n h35

/-- `readVarintAux` decodes `encodeVarint n` wherever its bytes sit in the
buffer, for any intermediate accumulator state with disjoint low bits. -/
theorem readVarintAux_encode :
    ∀ (n : Nat), n < 2 ^ 31 →
    ∀ (buf : List Nat) (offset : Int) (i acc left : Nat),
      (encodeVarint n).length ≤ left + 1 →
      acc < 2 ^ (7 * i) →
      acc + n * 2 ^ (7 * i) < 2 ^ 31 →
      (∀ j, j < (encodeVarint n).length →
        jsIdx buf (offset + ((i + j : Nat) : Int)) = some ((encodeVarint n).getD j 0)) →
      readVarintAux buf offset left i acc =
        .ok (((acc + n * 2 ^ (7 * i) : Nat) : Int), i + (encodeVarint n).length) := by
  intro n
  induction n using Nat.strong_induction_on with
  | _ n IH =>
    intro hn buf offset i acc left hlen hacc hval hb
    by_cases h128 : n < 128
    · have henc : encodeVarint n = [n] := by rw [encodeVarint_eq n hn, if_pos h128]
      rw [henc] at hb ⊢
      have hb0 := hb 0 (by simp)
      simp only [Nat.add_zero, List.getD_cons_zero] at hb0
      obtain ⟨hge, hlt⟩ := jsIdx_bounds hb0
      rw [readVarintAux]
      rw [if_pos (by exact_mod_cast hlt)]
      simp only [hb0, Option.getD_some]
      have ha1 : n &&& 127 = n := by rw [and127_eq, Nat.mod_eq_of_lt h128]
      rw [ha1, Nat.shiftLeft_eq, lor_mul_pow_disjoint acc n (7 * i) hacc]
      have hmod : (2 ^ (7 * i) * n + acc) % 2 ^ 32 = 2 ^ (7 * i) * n + acc := by
        apply Nat.mod_eq_of_lt
        have : 2 ^ (7 * i) * n + acc = acc + n * 2 ^ (7 * i) := by ring
        omega
      rw [hmod, if_pos (and128_of_lt n h128)]
      have hcomm : 2 ^ (7 * i) * n + acc = acc + n * 2 ^ (7 * i) := by ring
      rw [hcomm, asInt32_of_lt _ hval]
      simp
    · have henc : encodeVarint n = (n % 128 + 128) :: encodeVarint (n / 128) := by
        rw [encodeVarint_eq n hn, if_neg h128]
      have hlp := encodeVarint_length_pos (n / 128)
      rw [henc] at hlen hb ⊢
      simp only [List.length_cons] at hlen
      have hb0 := hb 0 (by simp)
      simp only [Nat.add_zero, List.getD_cons_zero] at hb0
      obtain ⟨hge, hlt⟩ := jsIdx_bounds hb0
      rw [readVarintAux]
      rw [if_pos (by exact_mod_cast hlt)]
      simp only [hb0, Option.getD_some]
      have ha1 : (n % 128 + 128) &&& 127 = n % 128 := by
        rw [and127_eq, Nat.add_mod_right, Nat.mod_mod_of_dvd _ (by norm_num)]
      rw [ha1, Nat.shiftLeft_eq, lor_mul_pow_disjoint acc (n % 128) (7 * i) hacc]
      have hle : 2 ^ (7 * i) * (n % 128) + acc ≤ acc + n * 2 ^ (7 * i) := by
        have h1 : n % 128 ≤ n := Nat.mod_le n 128
        have h2 : 2 ^ (7 * i) * (n % 128) ≤ 2 ^ (7 * i) * n := Nat.mul_le_mul_left _ h1
        have h3 : 2 ^ (7 * i) * n = n * 2 ^ (7 * i) := by ring
        omega
      have hmod : (2 ^ (7 * i) * (n % 128) + acc) % 2 ^ 32 = 2 ^ (7 * i) * (n % 128) + acc :=
        Nat.mod_eq_of_lt (by omega)
      rw [hmod]
      rw [if_neg (and128_of_ge (n % 128 + 128) (by omega)
        (by have := Nat.mod_lt n (show 0 < 128 from by norm_num); omega))]
      cases left with
      | zero => exact absurd hlen (by omega)
      | succ left2 =>
        have hdiv : n / 128 < n := Nat.div_lt_self (by omega) (by norm_num)
        have hepow : 2 ^ (7 * (i + 1)) = 2 ^ (7 * i) * 128 := by
          rw [show 7 * (i + 1) = 7 * i + 7 from by ring, pow_add]
          norm_num
        have hval2 : 2 ^ (7 * i) * (n % 128) + acc + n / 128 * 2 ^ (7 * (i + 1)) =
            acc + n * 2 ^ (7 * i) := by
          rw [hepow]
          calc 2 ^ (7 * i) * (n % 128) + acc + n / 128 * (2 ^ (7 * i) * 128) =
              acc + (n % 128 + 128 * (n / 128)) * 2 ^ (7 * i) := by ring
          _ = acc + n * 2 ^ (7 * i) := by rw [Nat.mod_add_div]
        have hacc2 : 2 ^ (7 * i) * (n % 128) + acc < 2 ^ (7 * (i + 1)) := by
          rw [hepow]
          have hm : n % 128 ≤ 127 := by omega
          have h1 : 2 ^ (7 * i) * (n % 128) ≤ 2 ^ (7 * i) * 127 := Nat.mul_le_mul_left _ hm
          omega
        have hrec := IH (n / 128) hdiv (by omega) buf offset (i + 1)
          (2 ^ (7 * i) * (n % 128) + acc) left2 (by omega) hacc2 (by omega)
          (fun j hj => by
            have := hb (j + 1) (by simp; omega)
            simp only [List.getD_cons_succ] at this
            rw [show i + (j + 1) = i + 1 + j from by ring] at this
            exact this)
        have hidx : i + 1 + (encodeVarint (n / 128)).length =
            i + ((encodeVarint (n / 128)).length + 1) := by omega
        show readVarintAux buf offset left2 (i + 1) (2 ^ (7 * i) * (n % 128) + acc) = _
        rw [hrec, hval2]
        simp only [List.length_cons]
        rw [hidx]

/-- `readVarint` decodes a varint encoding placed after an arbitrary byte
sequence. -/
theorem readVarint_encode (n : Nat) (h : n < 2 ^ 31) (pre rest : List Nat) :
    readVarint (pre ++ (encodeVarint n ++ rest)) (pre.length : Int) =
      .ok ((n : Int), (encodeVarint n).length) := by
  unfold readVarint
  have hr := readVarintAux_encode n h (pre ++ (encodeVarint n ++ rest)) (pre.length : Int)
    0 0 4 (by have := encodeVarint_length_le n h; omega) (by norm_num)
    (by simpa using h)
    (fun j hj => by
      have hcast : ((pre.length : Int) + ((0 + j : Nat) : Int)) = ((pre.length + j : Nat) : Int) := by
        push_cast; ring
      rw [hcast, jsIdx_natCast, List.getElem?_append_right (by omega)]
      have hj2 : pre.length + j - pre.length = j := by omega
      rw [hj2, List.getElem?_append_left (by omega)]
      rw [List.getElem?_eq_getElem hj]
      simp [List.getD_eq_getElem?_getD, List.getElem?_eq_getElem hj])
  simpa using hr

/-! ## Characterization of `readVarint64` -/

theorem readVarint64Aux_spec (buf : List Nat) (offset : Int) :
    ∀ (left i acc v m : Nat), acc < 2 ^ 32 → (7 * i < 32 → acc < 2 ^ (7 * i)) →
      readVarint64Aux buf offset left i acc = .ok (v, m) →
      i < m ∧ m ≤ i + left ∧ v = (acc + varintFullValue buf offset i (m - i)) % 2 ^ 32 := by
  intro left
  induction left with
  | zero =>
    intro i acc v m _ _ h
    exact absurd h (by simp [readVarint64Aux])
  | succ left2 IH =>
    intro i acc v m hacc32 haccl h
    rw [readVarint64Aux] at h
    by_cases hin : offset + (i : Int) < (buf.length : Int)
    · rw [if_pos hin] at h
      set b := (jsIdx buf (offset + (i : Int))).getD 0 with hbdef
      by_cases hcont : b &&& 128 = 0
      · rw [if_pos hcont] at h
        obtain ⟨hv, hm⟩ := by
          have := h
          simp only [Except.ok.injEq, Prod.mk.injEq] at this
          exact this
        subst hm
        refine ⟨by omega, by omega, ?_⟩
        have hmi : i + 1 - i = 1 := by omega
        rw [hmi]
        show v = (acc + (((jsIdx buf (offset + (i : Int))).getD 0 &&& 127) * 2 ^ (7 * i) +
          varintFullValue buf offset (i + 1) 0)) % 2 ^ 32
        rw [show varintFullValue buf offset (i + 1) 0 = 0 from rfl, Nat.add_zero, ← hbdef]
        by_cases hsh : 7 * i < 32
        · rw [if_pos hsh] at hv
          have hal := haccl hsh
          rw [Nat.shiftLeft_eq, lor_mul_pow_disjoint acc (b &&& 127) (7 * i) hal] at hv
          rw [← hv]
          have : 2 ^ (7 * i) * (b &&& 127) + acc = acc + (b &&& 127) * 2 ^ (7 * i) := by ring
          rw [this]
        · rw [if_neg hsh] at hv
          have h32 : 32 ≤ 7 * i := by omega
          have hsplit : 2 ^ (7 * i) = 2 ^ (7 * i - 32) * 2 ^ 32 := by
            rw [← pow_add]
            congr 1
            omega
          rw [← hv, hsplit]
          have : acc + (b &&& 127) * (2 ^ (7 * i - 32) * 2 ^ 32) =
              acc + (b &&& 127) * 2 ^ (7 * i - 32) * 2 ^ 32 := by ring
          rw [this, Nat.add_mul_mod_self_right, Nat.mod_eq_of_lt hacc32]
      · rw [if_neg hcont] at h
        set acc2 := if 7 * i < 32 then (acc ||| (b &&& 127) <<< (7 * i)) % 2 ^ 32 else acc
          with hacc2def
        have hacc2_32 : acc2 < 2 ^ 32 := by
          rw [hacc2def]
          split
          · exact Nat.mod_lt _ (by norm_num)
          · exact hacc32
        have hacc2l : 7 * (i + 1) < 32 → acc2 < 2 ^ (7 * (i + 1)) := by
          intro hsh1
          have hsh : 7 * i < 32 := by omega
          have hal := haccl hsh
          rw [hacc2def, if_pos hsh, Nat.shiftLeft_eq,
            lor_mul_pow_disjoint acc (b &&& 127) (7 * i) hal]
          have hb127 : b &&& 127 ≤ 127 := by
            rw [and127_eq]
            omega
          have h1 : 2 ^ (7 * i) * (b &&& 127) ≤ 2 ^ (7 * i) * 127 :=
            Nat.mul_le_mul_left _ hb127
          have hepow : 2 ^ (7 * (i + 1)) = 2 ^ (7 * i) * 128 := by
            rw [show 7 * (i + 1) = 7 * i + 7 from by ring, pow_add]
            norm_num
          have hlt : 2 ^ (7 * i) * (b &&& 127) + acc < 2 ^ (7 * (i + 1)) := by omega
          calc (2 ^ (7 * i) * (b &&& 127) + acc) % 2 ^ 32 ≤ 2 ^ (7 * i) * (b &&& 127) + acc :=
            Nat.mod_le _ _
          _ < 2 ^ (7 * (i + 1)) := hlt
        obtain ⟨h1, h2, h3⟩ := IH (i + 1) acc2 v m hacc2_32 hacc2l h
        refine ⟨by omega, by omega, ?_⟩
        have hmi : m - i = (m - (i + 1)) + 1 := by omega
        rw [hmi]
        show v = (acc + (((jsIdx buf (offset + (i : Int))).getD 0 &&& 127) * 2 ^ (7 * i) +
          varintFullValue buf offset (i + 1) (m - (i + 1)))) % 2 ^ 32
        rw [← hbdef, h3]
        by_cases hsh : 7 * i < 32
        · have hal := haccl hsh
          rw [hacc2def, if_pos hsh, Nat.shiftLeft_eq,
            lor_mul_pow_disjoint acc (b &&& 127) (7 * i) hal, Nat.mod_add_mod]
          congr 1
          ring
        · have h32 : 32 ≤ 7 * i := by omega
          rw [hacc2def, if_neg hsh]
          have hsplit : 2 ^ (7 * i) = 2 ^ (7 * i - 32) * 2 ^ 32 := by
            rw [← pow_add]
            congr 1
            omega
          rw [hsplit]
          have heq : acc + ((b &&& 127) * (2 ^ (7 * i - 32) * 2 ^ 32) +
              varintFullValue buf offset (i + 1) (m - (i + 1))) =
              acc + varintFullValue buf offset (i + 1) (m - (i + 1)) +
                (b &&& 127) * 2 ^ (7 * i - 32) * 2 ^ 32 := by ring
          rw [heq, Nat.add_mul_mod_self_right]
    · rw [if_neg hin] at h
      exact absurd h (by simp)

/-! ## Write-batch decoding lemmas -/

theorem jsIdx_append_cons (pre : List Nat) (x : Nat) (t : List Nat) :
    jsIdx (pre ++ (x :: t)) (pre.length : Int) = some x := by
  rw [jsIdx_natCast, List.getElem?_append_right (le_refl _)]
  simp

theorem batchLoop_exhaust (batch : List Nat) (acc : List Entry) (fuel : Nat) :
    batchLoop batch (batch.length : Int) acc fuel = acc := by
  cases fuel with
  | zero => rfl
  | succ f =>
    rw [batchLoop, if_neg (by omega)]

theorem encodeOp_put_length (k v : List Nat) :
    (encodeOp (.put k v)).length =
      1 + (encodeVarint k.length).length + k.length + (encodeVarint v.length).length +
        v.length := by
  simp [encodeOp]
  omega

theorem encodeOp_del_length (k : List Nat) :
    (encodeOp (.del k)).length = 1 + (encodeVarint k.length).length + k.length := by
  simp [encodeOp]
  omega

theorem batchLoop_put (pre k v rest : List Nat) (acc : List Entry) (fuel : Nat)
    (hk : k.length < 2 ^ 31) (hv : v.length < 2 ^ 31) :
    batchLoop (pre ++ (encodeOp (.put k v) ++ rest)) (pre.length : Int) acc (fuel + 1) =
      batchLoop (pre ++ (encodeOp (.put k v) ++ rest))
        (((pre.length + (encodeOp (.put k v)).length : Nat)) : Int) (acc ++ [⟨k, v⟩]) fuel := by
  set batch := pre ++ (encodeOp (.put k v) ++ rest) with hbatch
  set n1 := (encodeVarint k.length).length with hn1
  set n2 := (encodeVarint v.length).length with hn2
  have hlen : batch.length =
      pre.length + ((encodeOp (.put k v)).length + rest.length) := by
    simp [hbatch]
  have hoplen : (encodeOp (.put k v)).length = 1 + n1 + k.length + n2 + v.length :=
    encodeOp_put_length k v
  rw [batchLoop]
  rw [if_pos (by rw [hlen]; push_cast; omega)]
  have hshape0 : batch = pre ++ (1 :: (encodeVarint k.length ++ (k ++
      (encodeVarint v.length ++ (v ++ rest))))) := by
    simp [hbatch, encodeOp]
  have htag : jsIdx batch (pre.length : Int) = some 1 := by
    rw [hshape0]
    exact jsIdx_append_cons pre 1 _
  have hshape1 : batch = (pre ++ [1]) ++ (encodeVarint k.length ++
      ((k ++ (encodeVarint v.length ++ (v ++ rest))))) := by
    simp [hbatch, encodeOp]
  have hrv1 : readVarint batch ((pre.length : Int) + 1) = .ok ((k.length : Int), n1) := by
    have hc : (pre.length : Int) + 1 = (((pre ++ [1]).length : Nat) : Int) := by
      simp
    rw [hc, hshape1, readVarint_encode k.length hk]
  have hshape2 : batch = (pre ++ [1] ++ encodeVarint k.length) ++
      (k ++ (encodeVarint v.length ++ (v ++ rest))) := by
    simp [hbatch, encodeOp]
  have hkey : jsSub batch ((pre.length : Int) + 1 + (n1 : Int))
      ((pre.length : Int) + 1 + (n1 : Int) + ((k.length : Int))) = k := by
    have hc1 : (pre.length : Int) + 1 + (n1 : Int) =
        (((pre ++ [1] ++ encodeVarint k.length).length : Nat) : Int) := by
      simp [hn1]
      push_cast
      ring
    have hc2 : (pre.length : Int) + 1 + (n1 : Int) + ((k.length : Int)) =
        ((((pre ++ [1] ++ encodeVarint k.length).length + k.length : Nat)) : Int) := by
      simp [hn1]
      push_cast
      ring
    rw [hc2, hc1, hshape2, jsSub_slice]
  have hshape3 : batch = (pre ++ [1] ++ encodeVarint k.length ++ k) ++
      (encodeVarint v.length ++ (v ++ rest)) := by
    simp [hbatch, encodeOp]
  have hrv2 : readVarint batch ((pre.length : Int) + 1 + (n1 : Int) + (k.length : Int)) =
      .ok ((v.length : Int), n2) := by
    have hc : (pre.length : Int) + 1 + (n1 : Int) + (k.length : Int) =
        (((pre ++ [1] ++ encodeVarint k.length ++ k).length : Nat) : Int) := by
      simp [hn1]
      push_cast
      ring
    rw [hc, hshape3, readVarint_encode v.length hv]
  have hshape4 : batch = (pre ++ [1] ++ encodeVarint k.length ++ k ++
      encodeVarint v.length) ++ (v ++ rest) := by
    simp [hbatch, encodeOp]
  have hval : jsSub batch
      ((pre.length : Int) + 1 + (n1 : Int) + (k.length : Int) + (n2 : Int))
      ((pre.length : Int) + 1 + (n1 : Int) + (k.length : Int) + (n2 : Int) +
        ((v.length : Int))) = v := by
    have hc1 : (pre.length : Int) + 1 + (n1 : Int) + (k.length : Int) + (n2 : Int) =
        (((pre ++ [1] ++ encodeVarint k.length ++ k ++ encodeVarint v.length).length :
          Nat) : Int) := by
      simp [hn1, hn2]
      push_cast
      ring
    have hc2 : (pre.length : Int) + 1 + (n1 : Int) + (k.length : Int) + (n2 : Int) +
        ((v.length : Int)) =
        ((((pre ++ [1] ++ encodeVarint k.length ++ k ++ encodeVarint v.length).length +
          v.length : Nat)) : Int) := by
      simp [hn1, hn2]
      push_cast
      ring
    rw [hc2, hc1, hshape4, jsSub_slice]
  have hoff : (pre.length : Int) + 1 + (n1 : Int) + (k.length : Int) + (n2 : Int) +
      ((v.length : Int)) = (((pre.length + (encodeOp (.put k v)).length : Nat)) : Int) := by
    rw [hoplen]
    push_cast
    ring
  simp only [htag, reduceIte, hrv1, hkey, hrv2, hval]
  rw [hoff]

theorem batchLoop_del (pre k rest : List Nat) (acc : List Entry) (fuel : Nat)
    (hk : k.length < 2 ^ 31) :
    batchLoop (pre ++ (encodeOp (.del k) ++ rest)) (pre.length : Int) acc (fuel + 1) =
      batchLoop (pre ++ (encodeOp (.del k) ++ rest))
        (((pre.length + (encodeOp (.del k)).length : Nat)) : Int) acc fuel := by
  set batch := pre ++ (encodeOp (.del k) ++ rest) with hbatch
  set n1 := (encodeVarint k.length).length with hn1
  have hlen : batch.length = pre.length + ((encodeOp (.del k)).length + rest.length) := by
    simp [hbatch]
  have hoplen : (encodeOp (.del k)).length = 1 + n1 + k.length := encodeOp_del_length k
  rw [batchLoop]
  rw [if_pos (by rw [hlen]; push_cast; omega)]
  have hshape0 : batch = pre ++ (0 :: (encodeVarint k.length ++ (k ++ rest))) := by
    simp [hbatch, encodeOp]
  have htag : jsIdx batch (pre.length : Int) = some 0 := by
    rw [hshape0]
    exact jsIdx_append_cons pre 0 _
  have hshape1 : batch = (pre ++ [0]) ++ (encodeVarint k.length ++ (k ++ rest)) := by
    simp [hbatch, encodeOp]
  have hrv1 : readVarint batch ((pre.length : Int) + 1) = .ok ((k.length : Int), n1) := by
    have hc : (pre.length : Int) + 1 = (((pre ++ [0]).length : Nat) : Int) := by simp
    rw [hc, hshape1, readVarint_encode k.length hk]
  have hoff : (pre.length : Int) + 1 + (n1 : Int) + (k.length : Int) =
      (((pre.length + (encodeOp (.del k)).length : Nat)) : Int) := by
    rw [hoplen]
    push_cast
    ring
  simp only [htag]
  rw [if_neg (show ¬((0 : Nat) = 1) from by decide)]
  simp only [if_true, reduceIte, hrv1]
  rw [hoff]

theorem batchLoop_badTag (pre : List Nat) (t : Nat) (junk : List Nat) (acc : List Entry)
    (fuel : Nat) (ht : 2 ≤ t) :
    batchLoop (pre ++ (t :: junk)) (pre.length : Int) acc (fuel + 1) = acc := by
  rw [batchLoop]
  rw [if_pos (by simp)]
  rw [jsIdx_append_cons pre t junk]
  have h1 : ¬(t = 1) := by omega
  have h0 : ¬(t = 0) := by omega
  simp only [h1, h0, reduceIte]

theorem opsBytes_cons (op : BatchOp) (ops : List BatchOp) :
    opsBytes (op :: ops) = encodeOp op ++ opsBytes ops := by
  simp [opsBytes]

theorem opsBytes_length_ge (ops : List BatchOp) : ops.length ≤ (opsBytes ops).length := by
  induction ops with
  | nil => simp [opsBytes]
  | cons op ops IH =>
    rw [opsBytes_cons]
    have hop : 1 ≤ (encodeOp op).length := by
      cases op <;> simp [encodeOp]
    simp only [List.length_append, List.length_cons]
    omega

theorem opsOk_cons {op : BatchOp} {ops : List BatchOp} (h : opsOk (op :: ops)) :
    ((opKey op).length < 2 ^ 31 ∧ (opValue op).length < 2 ^ 31) ∧ opsOk ops := by
  constructor
  · exact h op (by simp)
  · intro o ho
    exact h o (by simp [ho])

theorem batchLoop_run_exact (ops : List BatchOp) :
    ∀ (pre : List Nat) (acc : List Entry) (fuel : Nat), opsOk ops → ops.length < fuel →
      batchLoop (pre ++ opsBytes ops) (pre.length : Int) acc fuel = acc ++ opEntries ops := by
  induction ops with
  | nil =>
    intro pre acc fuel _ _
    simp only [opsBytes, List.map_nil, List.flatten_nil, List.append_nil, opEntries,
      List.filterMap_nil]
    exact batchLoop_exhaust pre acc fuel
  | cons op ops IH =>
    intro pre acc fuel hok hfuel
    obtain ⟨⟨hbk, hbv⟩, hok2⟩ := opsOk_cons hok
    rw [opsBytes_cons]
    cases fuel with
    | zero => omega
    | succ f =>
      cases op with
      | put k v =>
        have hstep := batchLoop_put pre k v (opsBytes ops) acc f hbk hbv
        rw [hstep]
        have hshift : pre ++ (encodeOp (.put k v) ++ opsBytes ops) =
            (pre ++ encodeOp (.put k v)) ++ opsBytes ops := by simp
        have hlen2 : (((pre.length + (encodeOp (.put k v)).length : Nat)) : Int) =
            (((pre ++ encodeOp (.put k v)).length : Nat) : Int) := by simp
        rw [hshift, hlen2]
        rw [IH (pre ++ encodeOp (.put k v)) (acc ++ [Entry.mk k v]) f hok2
          (by simp only [List.length_cons] at hfuel; omega)]
        simp [opEntries, opEntry]
      | del k =>
        have hstep := batchLoop_del pre k (opsBytes ops) acc f hbk
        rw [hstep]
        have hshift : pre ++ (encodeOp (.del k) ++ opsBytes ops) =
            (pre ++ encodeOp (.del k)) ++ opsBytes ops := by simp
        have hlen2 : (((pre.length + (encodeOp (.del k)).length : Nat)) : Int) =
            (((pre ++ encodeOp (.del k)).length : Nat) : Int) := by simp
        rw [hshift, hlen2]
        rw [IH (pre ++ encodeOp (.del k)) acc f hok2
          (by simp only [List.length_cons] at hfuel; omega)]
        simp [opEntries, opEntry]

theorem batchLoop_run_badTail (ops : List BatchOp) :
    ∀ (pre : List Nat) (t : Nat) (junk : List Nat) (acc : List Entry) (fuel : Nat),
      opsOk ops → 2 ≤ t → ops.length < fuel →
      batchLoop (pre ++ (opsBytes ops ++ (t :: junk))) (pre.length : Int) acc fuel =
        acc ++ opEntries ops := by
  induction ops with
  | nil =>
    intro pre t junk acc fuel _ ht hfuel
    cases fuel with
    | zero => omega
    | succ f =>
      simp only [opsBytes, List.map_nil, List.flatten_nil, List.nil_append]
      rw [batchLoop_badTag pre t junk acc f ht]
      simp [opEntries]
  | cons op ops IH =>
    intro pre t junk acc fuel hok ht hfuel
    obtain ⟨⟨hbk, hbv⟩, hok2⟩ := opsOk_cons hok
    rw [opsBytes_cons]
    cases fuel with
    | zero => omega
    | succ f =>
      have hre : (encodeOp op ++ opsBytes ops) ++ (t :: junk) =
          encodeOp op ++ (opsBytes ops ++ (t :: junk)) := by simp
      rw [hre]
      cases op with
      | put k v =>
        have hstep := batchLoop_put pre k v (opsBytes ops ++ (t :: junk)) acc f hbk hbv
        rw [hstep]
        have hshift : pre ++ (encodeOp (.put k v) ++ (opsBytes ops ++ (t :: junk))) =
            (pre ++ encodeOp (.put k v)) ++ (opsBytes ops ++ (t :: junk)) := by simp
        have hlen2 : (((pre.length + (encodeOp (.put k v)).length : Nat)) : Int) =
            (((pre ++ encodeOp (.put k v)).length : Nat) : Int) := by simp
        rw [hshift, hlen2]
        rw [IH (pre ++ encodeOp (.put k v)) t junk (acc ++ [Entry.mk k v]) f hok2 ht
          (by simp only [List.length_cons] at hfuel; omega)]
        simp [opEntries, opEntry]
      | del k =>
        have hstep := batchLoop_del pre k (opsBytes ops ++ (t :: junk)) acc f hbk
        rw [hstep]
        have hshift : pre ++ (encodeOp (.del k) ++ (opsBytes ops ++ (t :: junk))) =
            (pre ++ encodeOp (.del k)) ++ (opsBytes ops ++ (t :: junk)) := by simp
        have hlen2 : (((pre.length + (encodeOp (.del k)).length : Nat)) : Int) =
            (((pre ++ encodeOp (.del k)).length : Nat) : Int) := by simp
        rw [hshift, hlen2]
        rw [IH (pre ++ encodeOp (.del k)) t junk acc f hok2 ht
          (by simp only [List.length_cons] at hfuel; omega)]
        simp [opEntries, opEntry]

theorem parseLogBatch_short (b : List Nat) (h : b.length < 12) : parseLogBatch b = [] := by
  simp [parseLogBatch, h]

theorem parseLogBatch_ops (hdr : List Nat) (ops : List BatchOp)
    (hh : hdr.length = 12) (hok : opsOk ops) :
    parseLogBatch (hdr ++ opsBytes ops) = opEntries ops := by
  unfold parseLogBatch
  have hlen : (hdr ++ opsBytes ops).length = 12 + (opsBytes ops).length := by simp [hh]
  rw [if_neg (by omega)]
  rw [show (12 : Int) = ((hdr.length : Nat) : Int) from by rw [hh]; rfl]
  have hrun := batchLoop_run_exact ops hdr [] ((hdr ++ opsBytes ops).length + 1) hok
    (by have := opsBytes_length_ge ops; omega)
  simpa using hrun

theorem parseLogBatch_ops_tail (hdr : List Nat) (ops : List BatchOp) (t : Nat)
    (junk : List Nat) (hh : hdr.length = 12) (hok : opsOk ops) (ht : 2 ≤ t) :
    parseLogBatch (hdr ++ (opsBytes ops ++ (t :: junk))) = opEntries ops := by
  unfold parseLogBatch
  have hlen : (hdr ++ (opsBytes ops ++ (t :: junk))).length =
      12 + (opsBytes ops).length + junk.length + 1 := by simp [hh]; omega
  rw [if_neg (by omega)]
  rw [show (12 : Int) = ((hdr.length : Nat) : Int) from by rw [hh]; rfl]
  exact batchLoop_run_badTail ops hdr t junk []
    ((hdr ++ (opsBytes ops ++ (t :: junk))).length + 1) hok ht
    (by have := opsBytes_length_ge ops; omega)

/-! ## Log-file walk lemmas -/

theorem logLoop_exit (data : List Nat) (offset : Nat) (pending : List (List Nat))
    (acc : List Entry) (fuel : Nat) (h : data.length ≤ offset) :
    logLoop data offset pending acc fuel = acc := by
  cases fuel with
  | zero => rfl
  | succ f =>
    rw [logLoop, if_neg (by omega)]

theorem logLoop_skip (data : List Nat) (offset : Nat) (pending : List (List Nat))
    (acc : List Entry) (fuel : Nat) (hin : offset < data.length)
    (hrem : 32768 - offset % 32768 < 7) :
    logLoop data offset pending acc (fuel + 1) =
      logLoop data (offset + (32768 - offset % 32768)) pending acc fuel := by
  rw [logLoop, if_pos hin, if_pos hrem]

theorem logRec_length (crc : List Nat) (t : Nat) (payload : List Nat)
    (hcrc : crc.length = 4) : (logRec crc t payload).length = 7 + payload.length := by
  simp [logRec, hcrc]
  omega

theorem logLoop_record (data pre crc payload rest : List Nat) (t : Nat)
    (pending : List (List Nat)) (acc : List Entry) (fuel : Nat)
    (hdata : data = pre ++ (logRec crc t payload ++ rest))
    (hcrc : crc.length = 4)
    (hpay1 : 1 ≤ payload.length) (hpay2 : payload.length < 65536)
    (hblk : pre.length % 32768 ≤ 32761) :
    logLoop data pre.length pending acc (fuel + 1) =
      (if t = 1 then logLoop data (pre.length + 7 + payload.length) []
         (acc ++ parseLogBatch payload) fuel
       else if t = 2 then logLoop data (pre.length + 7 + payload.length) [payload] acc fuel
       else if t = 3 then logLoop data (pre.length + 7 + payload.length)
         (if pending.length > 0 then pending ++ [payload] else pending) acc fuel
       else if t = 4 then
         (if pending.length > 0 then
            logLoop data (pre.length + 7 + payload.length) []
              (acc ++ parseLogBatch (List.flatten (pending ++ [payload]))) fuel
          else logLoop data (pre.length + 7 + payload.length) [] acc fuel)
       else logLoop data (pre.length + 7 + payload.length) pending acc fuel) := by
  have hrl : (logRec crc t payload).length = 7 + payload.length := logRec_length crc t payload hcrc
  have hdl : data.length = pre.length + (7 + payload.length) + rest.length := by
    rw [hdata]
    simp only [List.length_append, hrl]
    omega
  have hlen3 : (crc ++ [payload.length % 256, payload.length / 256, t]).length = 7 := by
    simp [hcrc]
  have h4 : data.getD (pre.length + 4) 0 = payload.length % 256 := by
    rw [hdata, List.getD_append_right _ _ _ _ (by omega)]
    simp only [Nat.add_sub_cancel_left]
    rw [List.getD_append _ _ _ _ (by omega)]
    unfold logRec
    rw [List.getD_append _ _ _ _ (by omega)]
    rw [List.getD_append_right _ _ _ _ (by omega)]
    simp [hcrc]
  have h5 : data.getD (pre.length + 5) 0 = payload.length / 256 := by
    rw [hdata, List.getD_append_right _ _ _ _ (by omega)]
    simp only [Nat.add_sub_cancel_left]
    rw [List.getD_append _ _ _ _ (by omega)]
    unfold logRec
    rw [List.getD_append _ _ _ _ (by omega)]
    rw [List.getD_append_right _ _ _ _ (by omega)]
    simp [hcrc]
  have h6 : data.getD (pre.length + 6) 0 = t := by
    rw [hdata, List.getD_append_right _ _ _ _ (by omega)]
    simp only [Nat.add_sub_cancel_left]
    rw [List.getD_append _ _ _ _ (by omega)]
    unfold logRec
    rw [List.getD_append _ _ _ _ (by omega)]
    rw [List.getD_append_right _ _ _ _ (by omega)]
    simp [hcrc]
  have h16 : readUInt16LE data (pre.length + 4) = payload.length := by
    unfold readUInt16LE
    rw [h4, show pre.length + 4 + 1 = pre.length + 5 from by omega, h5]
    omega
  have hslice : jsSub data ((pre.length : Int) + 7) ((pre.length : Int) + 7 +
      ((payload.length : Nat) : Int)) = payload := by
    have hshape : data = (pre ++ (crc ++ [payload.length % 256, payload.length / 256, t])) ++
        (payload ++ rest) := by
      rw [hdata]
      simp [logRec]
    have hc1 : (pre.length : Int) + 7 =
        (((pre ++ (crc ++ [payload.length % 256, payload.length / 256, t])).length : Nat) :
          Int) := by
      simp [hcrc]
    have hc2 : (pre.length : Int) + 7 + ((payload.length : Nat) : Int) =
        ((((pre ++ (crc ++ [payload.length % 256, payload.length / 256, t])).length +
          payload.length : Nat)) : Int) := by
      simp [hcrc]
    rw [hc2, hc1, hshape]
    have hmid : payload ++ rest = payload ++ rest := rfl
    exact jsSub_slice _ payload rest
  rw [logLoop]
  rw [if_pos (by omega)]
  rw [if_neg (by omega)]
  rw [if_neg (by omega)]
  rw [h16, h6]
  simp only []
  rw [if_neg (by omega)]
  rw [hslice]

theorem logLoop_record_at (data pre crc payload rest : List Nat) (t : Nat)
    (pending : List (List Nat)) (acc : List Entry) (fuel : Nat) (offset : Nat)
    (hoff : offset = pre.length)
    (hdata : data = pre ++ (logRec crc t payload ++ rest))
    (hcrc : crc.length = 4)
    (hpay1 : 1 ≤ payload.length) (hpay2 : payload.length < 65536)
    (hblk : offset % 32768 ≤ 32761) :
    logLoop data offset pending acc (fuel + 1) =
      (if t = 1 then logLoop data (offset + 7 + payload.length) []
         (acc ++ parseLogBatch payload) fuel
       else if t = 2 then logLoop data (offset + 7 + payload.length) [payload] acc fuel
       else if t = 3 then logLoop data (offset + 7 + payload.length)
         (if pending.length > 0 then pending ++ [payload] else pending) acc fuel
       else if t = 4 then
         (if pending.length > 0 then
            logLoop data (offset + 7 + payload.length) []
              (acc ++ parseLogBatch (List.flatten (pending ++ [payload]))) fuel
          else logLoop data (offset + 7 + payload.length) [] acc fuel)
       else logLoop data (offset + 7 + payload.length) pending acc fuel) := by
  subst hoff
  exact logLoop_record data pre crc payload rest t pending acc fuel hdata hcrc hpay1 hpay2 hblk

theorem parseLogFile_full (crc payload : List Nat) (hcrc : crc.length = 4)
    (hp1 : 1 ≤ payload.length) (hp2 : payload.length < 65536) :
    parseLogFile (logRec crc 1 payload) = parseLogBatch payload := by
  unfold parseLogFile
  have hl : (logRec crc 1 payload).length = 7 + payload.length := logRec_length _ _ _ hcrc
  rw [hl]
  have hdata : logRec crc 1 payload = [] ++ (logRec crc 1 payload ++ []) := by simp
  have hstep := logLoop_record (logRec crc 1 payload) [] crc payload [] 1 [] []
    (7 + payload.length) hdata hcrc hp1 hp2 (by simp)
  simp only [List.length_nil] at hstep
  have h01 : (0 : Nat) + 7 + payload.length = 7 + payload.length := by omega
  rw [h01] at hstep
  rw [hstep]
  simp only [reduceIte, if_true]
  rw [logLoop_exit _ _ _ _ _ (by rw [hl])]
  simp

theorem parseLogFile_frag (c1 c2 c3 p1 p2 p3 : List Nat)
    (h1 : c1.length = 4) (h2 : c2.length = 4) (h3 : c3.length = 4)
    (hp1 : 1 ≤ p1.length) (hp2 : 1 ≤ p2.length) (hp3 : 1 ≤ p3.length)
    (hsize : p1.length + p2.length + p3.length + 21 ≤ 32761) :
    parseLogFile ((logRec c1 2 p1 ++ logRec c2 3 p2) ++ logRec c3 4 p3) =
      parseLogBatch (p1 ++ (p2 ++ p3)) := by
  set A := logRec c1 2 p1 with hA
  set B := logRec c2 3 p2 with hB
  set C := logRec c3 4 p3 with hC
  have hAl : A.length = 7 + p1.length := logRec_length _ _ _ h1
  have hBl : B.length = 7 + p2.length := logRec_length _ _ _ h2
  have hCl : C.length = 7 + p3.length := logRec_length _ _ _ h3
  set F := (A ++ B) ++ C with hF
  have hFl : F.length = 21 + (p1.length + p2.length + p3.length) := by
    simp [hF, hAl, hBl, hCl]
    omega
  unfold parseLogFile
  rw [hFl]
  have e21 : ((2 : Nat) = 1) = False := by decide
  have e31 : ((3 : Nat) = 1) = False := by decide
  have e32 : ((3 : Nat) = 2) = False := by decide
  have e41 : ((4 : Nat) = 1) = False := by decide
  have e42 : ((4 : Nat) = 2) = False := by decide
  have e43 : ((4 : Nat) = 3) = False := by decide
  have e22 : ((2 : Nat) = 2) = True := by decide
  have e33 : ((3 : Nat) = 3) = True := by decide
  have e44 : ((4 : Nat) = 4) = True := by decide
  have ep1 : ([p1].length > 0) = True := by simp
  have ep12 : (([p1, p2] : List (List Nat)).length > 0) = True := by simp
  have hshape1 : F = [] ++ (A ++ (B ++ C)) := by simp [hF]
  have hstep1 := logLoop_record F [] c1 p1 (B ++ C) 2 [] []
    (21 + (p1.length + p2.length + p3.length)) (by rw [hshape1, hA]) h1 hp1 (by omega)
    (by simp)
  simp only [List.length_nil] at hstep1
  rw [hstep1]
  simp only [e21, e31, e32, e41, e42, e43, e22, e33, e44, ep1, ep12, if_true, if_false]
  have ho1 : (0 : Nat) + 7 + p1.length = A.length := by omega
  rw [ho1]
  have hshape2 : F = A ++ (B ++ (C ++ [])) := by simp [hF]
  have hstep2 := logLoop_record F A c2 p2 (C ++ []) 3 [p1] []
    (20 + (p1.length + p2.length + p3.length)) (by rw [hshape2, hB]) h2 hp2 (by omega)
    (by omega)
  rw [show (21 + (p1.length + p2.length + p3.length)) =
    (20 + (p1.length + p2.length + p3.length)) + 1 from by omega]
  rw [hstep2]
  simp only [e21, e31, e32, e41, e42, e43, e22, e33, e44, ep1, ep12, if_true, if_false]
  have ho2 : A.length + 7 + p2.length = (A ++ B).length := by
    simp [hBl]
    omega
  rw [ho2]
  have hshape3 : F = (A ++ B) ++ (C ++ []) := by simp [hF]
  have hstep3 := logLoop_record F (A ++ B) c3 p3 [] 4 ([p1] ++ [p2]) []
    (19 + (p1.length + p2.length + p3.length)) (by rw [hshape3, hC]) h3 hp3 (by omega)
    (by simp [hAl, hBl]; omega)
  rw [show (20 + (p1.length + p2.length + p3.length)) =
    (19 + (p1.length + p2.length + p3.length)) + 1 from by omega]
  rw [hstep3]
  simp only [e21, e31, e32, e41, e42, e43, e22, e33, e44, ep1, ep12, if_true, if_false]
  rw [logLoop_exit _ _ _ _ _ (by simp [hAl, hBl, hCl, hFl]; omega)]
  simp

/-! ## Miscellaneous helper lemmas -/

theorem readVarint_oob (buf : List Nat) (offset : Int) (h : (buf.length : Int) ≤ offset) :
    readVarint buf offset = .error "Unexpected end of buffer reading varint" := by
  unfold readVarint
  rw [readVarintAux]
  rw [if_neg (by push_cast; omega)]

theorem batchLoop_exit_ge (batch : List Nat) (offset : Int) (acc : List Entry) (fuel : Nat)
    (h : (batch.length : Int) ≤ offset) : batchLoop batch offset acc fuel = acc := by
  cases fuel with
  | zero => rfl
  | succ f =>
    rw [batchLoop, if_neg (by omega)]

theorem foldl_append_flatMap {α : Type} (l : List α) (f : α → List Entry) :
    ∀ init : List Entry, l.foldl (fun acc x => acc ++ f x) init = init ++ l.flatMap f := by
  induction l with
  | nil => intro init; simp
  | cons x t IH =>
    intro init
    simp only [List.foldl_cons, List.flatMap_cons, IH (init ++ f x)]
    simp

theorem bufIncludes_iff (sub hay : List Nat) : bufIncludes sub hay = true ↔ sub <:+: hay := by
  induction hay with
  | nil =>
    simp [bufIncludes, List.isPrefixOf_iff_prefix]
  | cons b t IH =>
    simp only [bufIncludes, Bool.or_eq_true, List.isPrefixOf_iff_prefix, IH,
      List.infix_cons_iff]

/-! ## Claim C8 -/

/-- C8: `readVarint64` decodes at most 10 bytes, and whenever it succeeds the
returned value is the full (unbounded) base-128 value of the consumed bytes
reduced modulo `2 ^ 32` — only the low 32 bits are retained. -/
theorem C8_readVarint64_truncates (buf : List Nat) (offset : Int) (v m : Nat)
    (h : readVarint64 buf offset = .ok (v, m)) :
    m ≤ 10 ∧ v = varintFullValue buf offset 0 m % 2 ^ 32 := by
  obtain ⟨h1, h2, h3⟩ := readVarint64Aux_spec buf offset 10 0 0 v m (by norm_num)
    (by intro; norm_num) h
  refine ⟨by omega, ?_⟩
  simpa using h3

/-- Witness for C8 at a concrete two-byte varint. -/
theorem C8_witness :
    2 ≤ 10 ∧ 143 = varintFullValue [0x8f, 0x01] 0 0 2 % 2 ^ 32 :=
  C8_readVarint64_truncates [0x8f, 0x01] 0 143 2 (by decide)

/-! ## Claim C7 -/

/-- C7: any file whose final 8 bytes differ from the magic constant
`57 FB 80 8B 24 75 47 DB` makes `parseSSTable` return zero entries, for every
decompressor; the check is binary and never yields partial footer data (the
result is exactly `[]`), and the function is total, so no exception escapes. -/
theorem C7_bad_magic_yields_empty (snappy : List Nat → Int → Except String (List Nat))
    (data : List Nat) (h : data.drop (data.length - 8) ≠ LEVELDB_MAGIC) :
    parseSSTable snappy data = [] := by
  unfold parseSSTable
  by_cases hlen : data.length < 48
  · rw [if_pos hlen]
  · rw [if_neg hlen]
    simp only []
    have hfooter : jsSub data (-48) ((data.length : Nat) : Int) =
        data.drop (data.length - 48) := by
      unfold jsSub
      simp only []
      rw [if_pos (by norm_num), if_neg (by omega)]
      have h1 : (max ((data.length : Int) + (-48)) 0).toNat = data.length - 48 := by omega
      have h2 : (min ((data.length : Nat) : Int) ((data.length : Nat) : Int)).toNat =
          data.length := by omega
      rw [h1, h2, List.take_length]
    rw [hfooter]
    have hfl : (data.drop (data.length - 48)).length = 48 := by
      rw [List.length_drop]
      omega
    have hmagic : jsSub (data.drop (data.length - 48)) 40 48 =
        data.drop (data.length - 8) := by
      unfold jsSub
      simp only []
      rw [if_neg (by norm_num), if_neg (by norm_num)]
      rw [hfl]
      have h1 : (min (40 : Int) ((48 : Nat) : Int)).toNat = 40 := by
        norm_num
        decide
      have h2 : (min (48 : Int) ((48 : Nat) : Int)).toNat = 48 := by
        norm_num
        decide
      rw [h1, h2]
      rw [List.take_of_length_le (by rw [hfl])]
      rw [List.drop_drop]
      congr 1
      omega
    rw [hmagic, if_pos h]

/-- Witness for C7 at a concrete short file. -/
theorem C7_witness : parseSSTable (fun _ _ => .error "") [1, 2, 3] = [] :=
  C7_bad_magic_yields_empty _ [1, 2, 3] (by decide)

/-! ## Claim C9 -/

/-- C9: `findKeysContaining` returns exactly the subset of the directory scan
whose key contains the pattern as a contiguous byte run, preserving order
(sublist of the scan), and nothing outside that subset. -/
theorem C9_findBySubstring_exact_subset (snappy : List Nat → Int → Except String (List Nat))
    (dir : List (List Char × List Nat)) (s : List Nat) :
    (findKeysContaining snappy dir s).Sublist (readChromiumLevelDB snappy dir) ∧
    ∀ e, e ∈ findKeysContaining snappy dir s ↔
      e ∈ readChromiumLevelDB snappy dir ∧ s <:+: e.key := by
  constructor
  · exact List.filter_sublist _
  · intro e
    unfold findKeysContaining
    rw [List.mem_filter]
    rw [and_congr_right_iff]
    intro _
    exact bufIncludes_iff s e.key

/-! ## Claim C4 -/

/-- C4: `parseLogBatch` appends nothing for batches shorter than 12 bytes;
otherwise it skips the 8-byte sequence and 4-byte count (any 12-byte header,
count included, gives the same decoding, and every record present is decoded
regardless of the count), appends `{key, value}` for each `tag = 1` put,
drops each `tag = 0` delete entirely without suppressing earlier puts of the
same key, and stops at any other tag, keeping the entries appended so far and
ignoring only the remainder of this batch. -/
theorem C4_writebatch_decode :
    (∀ b : List Nat, b.length < 12 → parseLogBatch b = []) ∧
    (∀ (hdr : List Nat) (ops : List BatchOp), hdr.length = 12 → opsOk ops →
      parseLogBatch (hdr ++ opsBytes ops) = opEntries ops) ∧
    (∀ (hdr : List Nat) (ops : List BatchOp) (t : Nat) (junk : List Nat),
      hdr.length = 12 → opsOk ops → 2 ≤ t →
      parseLogBatch (hdr ++ (opsBytes ops ++ (t :: junk))) = opEntries ops) :=
  ⟨parseLogBatch_short, parseLogBatch_ops,
    fun hdr ops t junk hh hok ht => parseLogBatch_ops_tail hdr ops t junk hh hok ht⟩

/-- Witness for C4: a batch whose count field is zero still decodes both puts,
a delete of the same key drops nothing, and a trailing unknown tag only stops
the remainder. -/
theorem C4_witness :
    parseLogBatch (List.replicate 12 0 ++
        (opsBytes [.put [97] [98], .del [97], .put [99] [100]] ++ (7 :: [5, 5]))) =
      [⟨[97], [98]⟩, ⟨[99], [100]⟩] := by
  rw [C4_writebatch_decode.2.2 (List.replicate 12 0)
    [.put [97] [98], .del [97], .put [99] [100]] 7 [5, 5] (by simp) (by unfold opsOk; decide) (by omega)]
  decide

/-! ## Claim C10 -/

theorem c10_val_clamp (hdr k v : List Nat) (vl : Nat) (hh : hdr.length = 12)
    (hk : k.length < 2 ^ 31) (hvl : vl < 2 ^ 31) (hv : v.length < vl) :
    parseLogBatch (hdr ++ (1 :: (encodeVarint k.length ++ (k ++ (encodeVarint vl ++ v))))) =
      [⟨k, v⟩] := by
  set batch := hdr ++ (1 :: (encodeVarint k.length ++ (k ++ (encodeVarint vl ++ v))))
    with hbatch
  set n1 := (encodeVarint k.length).length with hn1
  set n2 := (encodeVarint vl).length with hn2
  have hlen : batch.length = 12 + (1 + n1 + k.length + n2 + v.length) := by
    simp [hbatch, hh]
    omega
  unfold parseLogBatch
  rw [if_neg (by omega)]
  rw [show (12 : Int) = ((hdr.length : Nat) : Int) from by rw [hh]; rfl]
  rw [show batch.length + 1 = batch.length + 1 from rfl]
  rw [batchLoop]
  rw [if_pos (by push_cast; omega)]
  have htag : jsIdx batch (hdr.length : Int) = some 1 := jsIdx_append_cons hdr 1 _
  have hshape1 : batch = (hdr ++ [1]) ++ (encodeVarint k.length ++
      (k ++ (encodeVarint vl ++ v))) := by
    simp [hbatch]
  have hrv1 : readVarint batch ((hdr.length : Int) + 1) = .ok ((k.length : Int), n1) := by
    rw [show (hdr.length : Int) + 1 = (((hdr ++ [1]).length : Nat) : Int) from by simp,
      hshape1, readVarint_encode k.length hk]
  have hshape2 : batch = (hdr ++ [1] ++ encodeVarint k.length) ++
      (k ++ (encodeVarint vl ++ v)) := by
    simp [hbatch]
  have hkey : jsSub batch ((hdr.length : Int) + 1 + (n1 : Int))
      ((hdr.length : Int) + 1 + (n1 : Int) + ((k.length : Int))) = k := by
    rw [show (hdr.length : Int) + 1 + (n1 : Int) + ((k.length : Int)) =
      ((((hdr ++ [1] ++ encodeVarint k.length).length + k.length : Nat)) : Int) from by
        simp [hn1]; push_cast; ring]
    rw [show (hdr.length : Int) + 1 + (n1 : Int) =
      (((hdr ++ [1] ++ encodeVarint k.length).length : Nat) : Int) from by
        simp [hn1]; push_cast; ring]
    rw [hshape2, jsSub_slice]
  have hshape3 : batch = (hdr ++ [1] ++ encodeVarint k.length ++ k) ++
      (encodeVarint vl ++ v) := by
    simp [hbatch]
  have hrv2 : readVarint batch ((hdr.length : Int) + 1 + (n1 : Int) + (k.length : Int)) =
      .ok ((vl : Int), n2) := by
    rw [show (hdr.length : Int) + 1 + (n1 : Int) + (k.length : Int) =
      (((hdr ++ [1] ++ encodeVarint k.length ++ k).length : Nat) : Int) from by
        simp [hn1]; push_cast; ring]
    rw [hshape3, readVarint_encode vl hvl]
  have hshape4 : batch = (hdr ++ [1] ++ encodeVarint k.length ++ k ++ encodeVarint vl) ++
      v := by
    simp [hbatch]
  have hpre4 : (hdr ++ [1] ++ encodeVarint k.length ++ k ++ encodeVarint vl).length =
      13 + n1 + k.length + n2 := by
    simp [hn1, hn2, hh]
    omega
  have hval : jsSub batch ((hdr.length : Int) + 1 + (n1 : Int) + (k.length : Int) + (n2 : Int))
      ((hdr.length : Int) + 1 + (n1 : Int) + (k.length : Int) + (n2 : Int) + ((vl : Nat) : Int)) =
      v := by
    rw [show (hdr.length : Int) + 1 + (n1 : Int) + (k.length : Int) + (n2 : Int) +
        ((vl : Nat) : Int) = (((13 + n1 + k.length + n2 + vl : Nat)) : Int) from by
        rw [hh]; push_cast; ring]
    rw [show (hdr.length : Int) + 1 + (n1 : Int) + (k.length : Int) + (n2 : Int) =
      (((13 + n1 + k.length + n2 : Nat)) : Int) from by rw [hh]; push_cast; ring]
    rw [jsSub_natCast]
    rw [List.take_of_length_le (by omega)]
    rw [hshape4, List.drop_left' hpre4]
  simp only [htag, reduceIte, hrv1, hkey, hrv2, hval]
  rw [batchLoop_exit_ge _ _ _ _ (by rw [hh]; push_cast; omega)]
  simp

theorem c10_key_overrun (hdr k : List Nat) (kl : Nat) (hh : hdr.length = 12)
    (hkl : kl < 2 ^ 31) (hk : k.length < kl) :
    parseLogBatch (hdr ++ (1 :: (encodeVarint kl ++ k))) = [] := by
  set batch := hdr ++ (1 :: (encodeVarint kl ++ k)) with hbatch
  set n1 := (encodeVarint kl).length with hn1
  have hlen : batch.length = 12 + (1 + n1 + k.length) := by
    simp [hbatch, hh]
    omega
  unfold parseLogBatch
  rw [if_neg (by omega)]
  rw [show (12 : Int) = ((hdr.length : Nat) : Int) from by rw [hh]; rfl]
  rw [batchLoop]
  rw [if_pos (by push_cast; omega)]
  have htag : jsIdx batch (hdr.length : Int) = some 1 := jsIdx_append_cons hdr 1 _
  have hshape1 : batch = (hdr ++ [1]) ++ (encodeVarint kl ++ k) := by
    simp [hbatch]
  have hrv1 : readVarint batch ((hdr.length : Int) + 1) = .ok ((kl : Int), n1) := by
    rw [show (hdr.length : Int) + 1 = (((hdr ++ [1]).length : Nat) : Int) from by simp,
      hshape1, readVarint_encode kl hkl]
  have hrv2 : readVarint batch ((hdr.length : Int) + 1 + (n1 : Int) + ((kl : Nat) : Int)) =
      .error "Unexpected end of buffer reading varint" := by
    apply readVarint_oob
    push_cast
    omega
  simp only [htag, reduceIte, hrv1, hrv2]

/-- C10 counterexample: the claim predicts that a put record whose declared
key length (5) exceeds the single remaining byte is appended with the key
clamped to that byte; the code instead fails the subsequent value-length read
and drops the record, producing no entry at all. -/
theorem C10_counterexample : parseLogBatch c10Batch = [] := by decide

/-- C10 as amended: a put record whose declared *value* length overruns the
buffer is appended with the value clamped to the bytes actually remaining and
no error is raised; but a put record whose declared *key* length overruns the
buffer makes the following value-length varint read fail, so that record is
dropped entirely and the batch stops (entries already appended are kept). -/
theorem C10_amended :
    (∀ (hdr k v : List Nat) (vl : Nat), hdr.length = 12 → k.length < 2 ^ 31 →
      vl < 2 ^ 31 → v.length < vl →
      parseLogBatch (hdr ++ (1 :: (encodeVarint k.length ++ (k ++ (encodeVarint vl ++ v))))) =
        [⟨k, v⟩]) ∧
    (∀ (hdr k : List Nat) (kl : Nat), hdr.length = 12 → kl < 2 ^ 31 → k.length < kl →
      parseLogBatch (hdr ++ (1 :: (encodeVarint kl ++ k))) = []) :=
  ⟨c10_val_clamp, c10_key_overrun⟩

/-- Witness for C10 at concrete inputs: declared value length 9 with one byte
remaining yields the clamped entry; declared key length 5 with one byte
remaining yields nothing. -/
theorem C10_witness :
    parseLogBatch (List.replicate 12 0 ++
        (1 :: (encodeVarint 1 ++ ([97] ++ (encodeVarint 9 ++ [98]))))) = [⟨[97], [98]⟩] ∧
    parseLogBatch (List.replicate 12 0 ++ (1 :: (encodeVarint 5 ++ [97]))) = [] :=
  ⟨C10_amended.1 (List.replicate 12 0) [97] [98] 9 (by simp) (by norm_num) (by norm_num)
      (by norm_num),
    C10_amended.2 (List.replicate 12 0) [97] 5 (by simp) (by norm_num) (by norm_num)⟩

/-! ## Claim C1 -/

/-- C1 counterexample: in `c1Block` the second record declares `shared = 5`
(read by `readVarint` at offset 5) while the previous key `[0x61]` has length
1; the claim predicts that parsing stops there with only the first entry, but
the code clamps the prefix and produces a second entry `("ab", "y")`. -/
theorem C1_counterexample :
    parseDataBlock c1Block = [⟨[0x61], [0x78]⟩, ⟨[0x61, 0x62], [0x79]⟩] ∧
    readVarint c1Block 5 = .ok (5, 1) := by
  constructor
  · decide
  · decide

/-- C1 as amended: within one block each key is reconstructed as
`previousKey[0 : shared] ++ delta` with the prefix range clamped to the
previous key (that is, `previousKey.take shared ++ delta`); a `shared` value
exceeding the previous key length is not treated as corruption — the entry is
still appended and parsing continues with the next record. -/
theorem C1_amended (block pre delta val rest prevKey : List Nat) (s ns vl : Nat)
    (acc : List Entry) (rs : Int) (fuel : Nat)
    (hblock : block = pre ++ (encodeVarint s ++ (encodeVarint ns ++ (encodeVarint vl ++
      (delta ++ (val ++ rest))))))
    (hs : s < 2 ^ 31) (hns : ns < 2 ^ 31) (hvl : vl < 2 ^ 31)
    (hd : delta.length = ns) (hv : val.length = vl)
    (hlt : (pre.length : Int) < rs)
    (hub : (((pre.length + (encodeVarint s).length + (encodeVarint ns).length +
      (encodeVarint vl).length + ns + vl : Nat)) : Int) ≤ rs) :
    dataBlockLoop block rs (pre.length : Int) prevKey acc (fuel + 1) =
      dataBlockLoop block rs
        (((pre.length + (encodeVarint s).length + (encodeVarint ns).length +
          (encodeVarint vl).length + ns + vl : Nat)) : Int)
        (prevKey.take s ++ delta) (acc ++ [⟨prevKey.take s ++ delta, val⟩]) fuel := by
  set e1 := (encodeVarint s).length with he1
  set e2 := (encodeVarint ns).length with he2
  set e3 := (encodeVarint vl).length with he3
  rw [dataBlockLoop]
  rw [if_pos hlt]
  have hrv1 : readVarint block (pre.length : Int) = .ok ((s : Int), e1) := by
    rw [hblock, readVarint_encode s hs]
  have hshape2 : block = (pre ++ encodeVarint s) ++ (encodeVarint ns ++ (encodeVarint vl ++
      (delta ++ (val ++ rest)))) := by
    simp [hblock]
  have hrv2 : readVarint block ((pre.length : Int) + (e1 : Int)) = .ok ((ns : Int), e2) := by
    rw [show (pre.length : Int) + (e1 : Int) = (((pre ++ encodeVarint s).length : Nat) : Int)
      from by simp [he1], hshape2, readVarint_encode ns hns]
  have hshape3 : block = (pre ++ encodeVarint s ++ encodeVarint ns) ++ (encodeVarint vl ++
      (delta ++ (val ++ rest))) := by
    simp [hblock]
  have hrv3 : readVarint block ((pre.length : Int) + (e1 : Int) + (e2 : Int)) =
      .ok ((vl : Int), e3) := by
    rw [show (pre.length : Int) + (e1 : Int) + (e2 : Int) =
      (((pre ++ encodeVarint s ++ encodeVarint ns).length : Nat) : Int) from by
        simp [he1, he2]; push_cast; ring]
    rw [hshape3, readVarint_encode vl hvl]
  have hshape4 : block = (pre ++ encodeVarint s ++ encodeVarint ns ++ encodeVarint vl) ++
      (delta ++ (val ++ rest)) := by
    simp [hblock]
  have hdelta : jsSub block ((pre.length : Int) + (e1 : Int) + (e2 : Int) + (e3 : Int))
      ((pre.length : Int) + (e1 : Int) + (e2 : Int) + (e3 : Int) + ((ns : Nat) : Int)) =
      delta := by
    rw [show (pre.length : Int) + (e1 : Int) + (e2 : Int) + (e3 : Int) + ((ns : Nat) : Int) =
      ((((pre ++ encodeVarint s ++ encodeVarint ns ++ encodeVarint vl).length +
        delta.length : Nat)) : Int) from by
        simp [he1, he2, he3, hd]; push_cast; ring]
    rw [show (pre.length : Int) + (e1 : Int) + (e2 : Int) + (e3 : Int) =
      (((pre ++ encodeVarint s ++ encodeVarint ns ++ encodeVarint vl).length : Nat) : Int)
      from by simp [he1, he2, he3]; push_cast; ring]
    rw [hshape4, jsSub_slice]
  have hshape5 : block = (pre ++ encodeVarint s ++ encodeVarint ns ++ encodeVarint vl ++
      delta) ++ (val ++ rest) := by
    simp [hblock]
  have hval : jsSub block
      ((pre.length : Int) + (e1 : Int) + (e2 : Int) + (e3 : Int) + ((ns : Nat) : Int))
      ((pre.length : Int) + (e1 : Int) + (e2 : Int) + (e3 : Int) + ((ns : Nat) : Int) +
        ((vl : Nat) : Int)) = val := by
    rw [show (pre.length : Int) + (e1 : Int) + (e2 : Int) + (e3 : Int) + ((ns : Nat) : Int) +
        ((vl : Nat) : Int) =
      ((((pre ++ encodeVarint s ++ encodeVarint ns ++ encodeVarint vl ++ delta).length +
        val.length : Nat)) : Int) from by
        simp [he1, he2, he3, hd, hv]; push_cast; ring]
    rw [show (pre.length : Int) + (e1 : Int) + (e2 : Int) + (e3 : Int) + ((ns : Nat) : Int) =
      (((pre ++ encodeVarint s ++ encodeVarint ns ++ encodeVarint vl ++ delta).length :
        Nat) : Int) from by simp [he1, he2, he3, hd]; push_cast; ring]
    rw [hshape5, jsSub_slice]
  have htake : jsSub prevKey 0 ((s : Nat) : Int) = prevKey.take s := jsSub_take prevKey s
  simp only [hrv1, hrv2, hrv3]
  rw [if_neg (by push_cast at hub ⊢; omega)]
  simp only [hdelta, hval, htake]
  rw [show (pre.length : Int) + (e1 : Int) + (e2 : Int) + (e3 : Int) + ((ns : Nat) : Int) +
      ((vl : Nat) : Int) = (((pre.length + e1 + e2 + e3 + ns + vl : Nat)) : Int) from by
    push_cast; ring]

/-- Witness for C1 at the second record of `c1Block`: `shared = 5` exceeds the
previous key length 1, yet the step produces the clamped key `[0x61, 0x62]`
and recursion continues. -/
theorem C1_witness :
    dataBlockLoop c1Block 10 (([0, 1, 1, 0x61, 0x78] : List Nat).length : Int) [0x61]
        [⟨[0x61], [0x78]⟩] 9 =
      dataBlockLoop c1Block 10 ((10 : Nat) : Int) (([0x61].take 5) ++ [0x62])
        [⟨[0x61], [0x78]⟩, ⟨([0x61].take 5) ++ [0x62], [0x79]⟩] 8 := by
  have h := C1_amended c1Block [0, 1, 1, 0x61, 0x78] [0x62] [0x79] [0, 0, 0, 0] [0x61]
    5 1 1 [⟨[0x61], [0x78]⟩] 10 8 (by decide) (by norm_num) (by norm_num) (by norm_num)
    (by decide) (by decide) (by decide) (by decide)
  simpa using h

/-! ## Claim C3 -/

/-- C3 counterexample: the directory listing `c3Dir` names the `.log` file
before the `.ldb` file, but the scan output places the SSTable entry first,
so output order does not follow directory-listing order. -/
theorem C3_counterexample :
    readChromiumLevelDB snStub c3Dir = [⟨[0x6b], [0x76]⟩, ⟨[0x78], [0x77]⟩] := by
  decide

/-- C3 as amended: every `.ldb`/`.sst` name is parsed with the SSTable reader
and every `.log` name with the log reader, but the output is all SSTable-file
results (in listing order) followed by all log-file results (in listing
order), not the interleaved listing order. -/
theorem C3_amended (snappy : List Nat → Int → Except String (List Nat))
    (dir : List (List Char × List Nat)) :
    readChromiumLevelDB snappy dir =
      (dir.filter (fun f => jsEndsWith f.1 ".ldb".toList ||
        jsEndsWith f.1 ".sst".toList)).flatMap (fun f => parseSSTable snappy f.2) ++
      (dir.filter (fun f => jsEndsWith f.1 ".log".toList)).flatMap
        (fun f => parseLogFile f.2) := by
  unfold readChromiumLevelDB
  simp only []
  rw [foldl_append_flatMap, foldl_append_flatMap]
  simp

/-! ## Claim C2 -/

set_option maxRecDepth 8000 in
/-- C2 counterexample: in `c2File` a FIRST record ends 6 bytes before the
32768-byte block boundary; the reader skips those trailer bytes but keeps the
open fragment accumulator, so the FIRST fragment completes with the LAST
record after the boundary and contributes the decoded put `("k", "v")` — the
claim predicts it could never contribute. -/
theorem C2_counterexample : parseLogFile c2File = [⟨[0x6b], [0x76]⟩] := by
  have hP : c2Payload1.length = 32755 := by
    rw [c2Payload1]
    simp only [List.length_append, List.length_replicate, List.length_cons, List.length_nil]
  have hA : (logRec [0, 0, 0, 0] 2 c2Payload1).length = 32762 := by
    rw [logRec_length _ _ _ (by decide)]
    omega
  have hC : (logRec [0, 0, 0, 0] 4 [9]).length = 8 := by
    rw [logRec_length _ _ _ (by decide)]
    simp
  have hFl : c2File.length = 32776 := by
    simp only [c2File, List.length_append, hA, hC, List.length_replicate]
  unfold parseLogFile
  rw [hFl]
  have hshape1 : c2File = [] ++ (logRec [0, 0, 0, 0] 2 c2Payload1 ++
      (List.replicate 6 0 ++ logRec [0, 0, 0, 0] 4 [9])) := by
    rw [c2File, List.nil_append, List.append_assoc]
  have hstep1 := logLoop_record_at c2File [] [0, 0, 0, 0] c2Payload1
    (List.replicate 6 0 ++ logRec [0, 0, 0, 0] 4 [9]) 2 [] [] 32776 0 rfl hshape1 (by decide)
    (by omega) (by omega) (by norm_num)
  rw [hstep1]
  have e21 : ((2 : Nat) = 1) = False := by decide
  simp only [e21, if_false, if_true, reduceIte]
  rw [show (0 : Nat) + 7 + c2Payload1.length = 32762 from by omega]
  rw [show (32776 : Nat) = 32775 + 1 from by norm_num]
  rw [logLoop_skip c2File 32762 [c2Payload1] [] 32775 (by omega) (by norm_num)]
  rw [show (32762 : Nat) + (32768 - 32762 % 32768) = 32768 from by norm_num]
  have hpre3 : (logRec [0, 0, 0, 0] 2 c2Payload1 ++ List.replicate 6 0).length = 32768 := by
    simp only [List.length_append, hA, List.length_replicate]
  have hshape3 : c2File = (logRec [0, 0, 0, 0] 2 c2Payload1 ++ List.replicate 6 0) ++
      (logRec [0, 0, 0, 0] 4 [9] ++ []) := by
    rw [c2File, List.append_nil]
  have hstep3 := logLoop_record_at c2File
    (logRec [0, 0, 0, 0] 2 c2Payload1 ++ List.replicate 6 0) [0, 0, 0, 0] [9] [] 4
    [c2Payload1] [] 32774 32768 hpre3.symm hshape3 (by decide) (by norm_num) (by norm_num)
    (by norm_num)
  rw [show (32775 : Nat) = 32774 + 1 from by norm_num]
  rw [hstep3]
  have e41 : ((4 : Nat) = 1) = False := by decide
  have e42 : ((4 : Nat) = 2) = False := by decide
  have e43 : ((4 : Nat) = 3) = False := by decide
  have ep : (([c2Payload1] : List (List Nat)).length > 0) = True := by simp
  simp only [e41, e42, e43, ep, if_false, if_true, reduceIte]
  rw [show (32768 : Nat) + 7 + ([9] : List Nat).length = 32776 from by simp]
  rw [logLoop_exit _ _ _ _ _ (le_of_eq hFl)]
  have hfl2 : List.flatten (([c2Payload1] : List (List Nat)) ++ [[9]]) = c2Payload1 ++ [9] := by
    simp
  rw [hfl2]
  have hob : opsBytes [.put [0x6b] [0x76]] = [1, 1, 0x6b, 1, 0x76] := by decide
  have hbs : c2Payload1 ++ [9] = List.replicate 12 0 ++
      (opsBytes [.put [0x6b] [0x76]] ++ (2 :: (List.replicate 32737 0 ++ [9]))) := by
    rw [hob, c2Payload1]
    simp only [List.cons_append, List.nil_append, List.append_assoc]
  rw [hbs, parseLogBatch_ops_tail _ _ _ _ (by simp) (by unfold opsOk; decide) (by omega)]
  decide

/-- C2 as amended: at a position with fewer than 7 bytes before the next
32768-byte block boundary the reader skips to the boundary but *preserves*
the open fragment accumulator, so an open FIRST/MIDDLE sequence can still
complete after the boundary. -/
theorem C2_amended (data : List Nat) (offset : Nat) (pending : List (List Nat))
    (acc : List Entry) (fuel : Nat) (hin : offset < data.length)
    (hrem : 32768 - offset % 32768 < 7) :
    logLoop data offset pending acc (fuel + 1) =
      logLoop data (offset + (32768 - offset % 32768)) pending acc fuel :=
  logLoop_skip data offset pending acc fuel hin hrem

/-- Witness for C2 at a concrete position 6 bytes short of the boundary. -/
theorem C2_witness :
    logLoop (List.replicate 32763 0) 32762 [[5]] [] 3 =
      logLoop (List.replicate 32763 0) (32762 + (32768 - 32762 % 32768)) [[5]] [] 2 :=
  C2_amended (List.replicate 32763 0) 32762 [[5]] [] 2 (by rw [List.length_replicate]; omega) (by norm_num)

/-! ## Claim C5 -/

theorem opEntries_map_put (ops : List (List Nat × List Nat)) :
    opEntries (ops.map fun kv => BatchOp.put kv.1 kv.2) =
      ops.map fun kv => Entry.mk kv.1 kv.2 := by
  unfold opEntries
  rw [List.filterMap_map]
  rw [show (opEntry ∘ fun kv : List Nat × List Nat => BatchOp.put kv.1 kv.2) =
    some ∘ fun kv : List Nat × List Nat => Entry.mk kv.1 kv.2 from rfl]
  rw [List.filterMap_eq_map]

theorem opsOk_map_put (ops : List (List Nat × List Nat))
    (h : ∀ kv ∈ ops, kv.1.length < 2 ^ 31 ∧ kv.2.length < 2 ^ 31) :
    opsOk (ops.map fun kv => BatchOp.put kv.1 kv.2) := by
  intro op hop
  rw [List.mem_map] at hop
  obtain ⟨kv, hkv, rfl⟩ := hop
  exact h kv hkv

/-- C5: a log file holding one FULL record whose write batch encodes the put
operations `ops` yields exactly those entries (in particular exactly
`ops.length` of them), and the log file holding the identical payload split
into FIRST, MIDDLE and LAST fragments (any 3-way split into nonempty
fragments) yields the same entries in the same order. -/
theorem C5_fragmentation_idempotence (ops : List (List Nat × List Nat))
    (crc c1 c2 c3 hdr p1 p2 p3 : List Nat)
    (hok : ∀ kv ∈ ops, kv.1.length < 2 ^ 31 ∧ kv.2.length < 2 ^ 31)
    (hhdr : hdr.length = 12) (hcrc : crc.length = 4)
    (hc1 : c1.length = 4) (hc2 : c2.length = 4) (hc3 : c3.length = 4)
    (hsplit : p1 ++ (p2 ++ p3) = hdr ++ opsBytes (ops.map fun kv => .put kv.1 kv.2))
    (hp1 : 1 ≤ p1.length) (hp2 : 1 ≤ p2.length) (hp3 : 1 ≤ p3.length)
    (hsize : (hdr ++ opsBytes (ops.map fun kv => .put kv.1 kv.2)).length ≤ 32740) :
    parseLogFile (logRec crc 1 (hdr ++ opsBytes (ops.map fun kv => .put kv.1 kv.2))) =
      ops.map (fun kv => Entry.mk kv.1 kv.2) ∧
    (parseLogFile (logRec crc 1
        (hdr ++ opsBytes (ops.map fun kv => .put kv.1 kv.2)))).length = ops.length ∧
    parseLogFile ((logRec c1 2 p1 ++ logRec c2 3 p2) ++ logRec c3 4 p3) =
      ops.map (fun kv => Entry.mk kv.1 kv.2) := by
  have hokb := opsOk_map_put ops hok
  have hpl : (hdr ++ opsBytes (ops.map fun kv => .put kv.1 kv.2)).length =
      12 + (opsBytes (ops.map fun kv => .put kv.1 kv.2)).length := by
    simp [hhdr]
  have hbatch : parseLogBatch (hdr ++ opsBytes (ops.map fun kv => .put kv.1 kv.2)) =
      ops.map fun kv => Entry.mk kv.1 kv.2 := by
    rw [parseLogBatch_ops hdr _ hhdr hokb, opEntries_map_put]
  have hfull := parseLogFile_full crc (hdr ++ opsBytes (ops.map fun kv => .put kv.1 kv.2))
    hcrc (by omega) (by omega)
  have hfirst : parseLogFile (logRec crc 1
      (hdr ++ opsBytes (ops.map fun kv => .put kv.1 kv.2))) =
      ops.map fun kv => Entry.mk kv.1 kv.2 := hfull.trans hbatch
  refine ⟨hfirst, by rw [hfirst]; simp, ?_⟩
  have hsl : p1.length + p2.length + p3.length =
      (hdr ++ opsBytes (ops.map fun kv => .put kv.1 kv.2)).length := by
    have := congrArg List.length hsplit
    simp only [List.length_append] at this
    omega
  have hfrag := parseLogFile_frag c1 c2 c3 p1 p2 p3 hc1 hc2 hc3 hp1 hp2 hp3 (by omega)
  rw [hfrag, hsplit, hbatch]

/-- Witness for C5 at a single concrete put operation, split 5/7/5. -/
theorem C5_witness :
    parseLogFile (logRec [0, 0, 0, 0] 1 (List.replicate 12 0 ++
        opsBytes (([([107], [118])] : List (List Nat × List Nat)).map
          fun kv => .put kv.1 kv.2))) =
      ([([107], [118])] : List (List Nat × List Nat)).map (fun kv => Entry.mk kv.1 kv.2) ∧
    (parseLogFile (logRec [0, 0, 0, 0] 1 (List.replicate 12 0 ++
        opsBytes (([([107], [118])] : List (List Nat × List Nat)).map
          fun kv => .put kv.1 kv.2)))).length =
      ([([107], [118])] : List (List Nat × List Nat)).length ∧
    parseLogFile ((logRec [0, 0, 0, 0] 2 [0, 0, 0, 0, 0] ++
        logRec [0, 0, 0, 0] 3 [0, 0, 0, 0, 0, 0, 0]) ++
      logRec [0, 0, 0, 0] 4 [1, 1, 107, 1, 118]) =
      ([([107], [118])] : List (List Nat × List Nat)).map (fun kv => Entry.mk kv.1 kv.2) :=
  C5_fragmentation_idempotence [([107], [118])] [0, 0, 0, 0] [0, 0, 0, 0] [0, 0, 0, 0]
    [0, 0, 0, 0] (List.replicate 12 0) [0, 0, 0, 0, 0] [0, 0, 0, 0, 0, 0, 0]
    [1, 1, 107, 1, 118] (by decide) (by decide) (by decide) (by decide) (by decide)
    (by decide) (by decide) (by decide) (by decide) (by decide) (by decide)

/-! ## Claim C6 -/

theorem bufIndexOfAux_some {needle l : List Nat} {i m : Nat}
    (h : bufIndexOfAux needle l i = some m) :
    i ≤ m ∧ needle <+: l.drop (m - i) ∧ ∀ j < m - i, ¬ needle <+: l.drop j := by
  induction l generalizing i with
  | nil =>
    unfold bufIndexOfAux at h
    by_cases hp : needle.isPrefixOf []
    · rw [if_pos hp] at h
      obtain rfl : i = m := Option.some.inj h
      exact ⟨le_refl i, by simpa using List.isPrefixOf_iff_prefix.mp hp, fun j hj => by omega⟩
    · rw [if_neg hp] at h; cases h
  | cons b t IH =>
    unfold bufIndexOfAux at h
    by_cases hp : needle.isPrefixOf (b :: t)
    · rw [if_pos hp] at h
      obtain rfl : i = m := Option.some.inj h
      exact ⟨le_refl i, by simpa using List.isPrefixOf_iff_prefix.mp hp, fun j hj => by omega⟩
    · rw [if_neg hp] at h
      obtain ⟨h1, h2, h3⟩ := IH h
      refine ⟨by omega, ?_, ?_⟩
      · have hmi : m - i = (m - (i + 1)) + 1 := by omega
        rw [hmi, List.drop_succ_cons]
        exact h2
      · intro j hj
        cases j with
        | zero =>
          simp only [List.drop_zero]
          exact fun hc => hp (List.isPrefixOf_iff_prefix.mpr hc)
        | succ j2 =>
          rw [List.drop_succ_cons]
          exact h3 j2 (by omega)

theorem bufIndexOfAux_none {needle l : List Nat} {i : Nat}
    (h : bufIndexOfAux needle l i = none) :
    ∀ j, ¬ needle <+: l.drop j := by
  induction l generalizing i with
  | nil =>
    unfold bufIndexOfAux at h
    by_cases hp : needle.isPrefixOf []
    · rw [if_pos hp] at h; cases h
    · intro j
      rw [List.drop_nil]
      exact fun hc => hp (List.isPrefixOf_iff_prefix.mpr hc)
  | cons b t IH =>
    unfold bufIndexOfAux at h
    by_cases hp : needle.isPrefixOf (b :: t)
    · rw [if_pos hp] at h; cases h
    · rw [if_neg hp] at h
      intro j
      cases j with
      | zero =>
        simp only [List.drop_zero]
        exact fun hc => hp (List.isPrefixOf_iff_prefix.mpr hc)
      | succ j2 =>
        rw [List.drop_succ_cons]
        exact IH h j2

theorem bufIndexOf_eq_none {hay needle : List Nat}
    (h : ∀ j, ¬ needle <+: hay.drop j) : bufIndexOf hay needle = none := by
  cases hb : bufIndexOf hay needle with
  | none => rfl
  | some m =>
    unfold bufIndexOf at hb
    obtain ⟨-, h2, -⟩ := bufIndexOfAux_some hb
    simp only [Nat.sub_zero] at h2
    exact absurd h2 (h m)

theorem bufIndexOf_eq_some {hay needle : List Nat} {idx : Nat}
    (hpre : needle <+: hay.drop idx)
    (hmin : ∀ j < idx, ¬ needle <+: hay.drop j) :
    bufIndexOf hay needle = some idx := by
  cases hb : bufIndexOf hay needle with
  | none =>
    unfold bufIndexOf at hb
    exact absurd hpre (bufIndexOfAux_none hb idx)
  | some m =>
    unfold bufIndexOf at hb
    obtain ⟨-, h2, h3⟩ := bufIndexOfAux_some hb
    simp only [Nat.sub_zero] at h2 h3
    have hm : m = idx := by
      by_contra hne2
      rcases Nat.lt_or_ge m idx with hlt | hge
      · exact hmin m hlt h2
      · exact h3 idx (by omega) hpre
    rw [hm]

theorem extendEndAux_spec (plain : List Nat) :
    ∀ fuel e, plain.length ≤ e + fuel →
      extendEndAux plain fuel e = e + ((plain.drop e).takeWhile printable).length := by
  intro fuel
  induction fuel with
  | zero =>
    intro e he
    rw [extendEndAux, List.drop_eq_nil_of_le (by omega), List.takeWhile_nil]
    simp
  | succ fuel IH =>
    intro e he
    unfold extendEndAux
    by_cases hc : e < plain.length ∧ 0x21 ≤ plain.getD e 0 ∧ plain.getD e 0 ≤ 0x7e
    · rw [if_pos hc]
      obtain ⟨hlt, hlo, hhi⟩ := hc
      have hg : plain.getD e 0 = plain.get ⟨e, hlt⟩ := by
        rw [List.getD_eq_getElem plain 0 hlt]
        simp
      rw [IH (e + 1) (by omega), List.drop_eq_getElem_cons hlt,
        List.takeWhile_cons_of_pos]
      · simp only [List.length_cons]
        omega
      · simp only [printable, Bool.and_eq_true, decide_eq_true_eq]
        constructor
        · rw [← List.getD_eq_getElem plain 0 hlt]
          exact hlo
        · rw [← List.getD_eq_getElem plain 0 hlt]
          exact hhi
    · rw [if_neg hc]
      by_cases hlt : e < plain.length
      · rw [List.drop_eq_getElem_cons hlt, List.takeWhile_cons_of_neg]
        · simp
        · intro hp
          simp only [printable, Bool.and_eq_true, decide_eq_true_eq] at hp
          refine hc ⟨hlt, ?_, ?_⟩
          · rw [List.getD_eq_getElem plain 0 hlt]
            exact hp.1
          · rw [List.getD_eq_getElem plain 0 hlt]
            exact hp.2
      · rw [List.drop_eq_nil_of_le (by omega), List.takeWhile_nil]
        simp

theorem extendEnd_token (plain : List Nat) (idx : Nat) :
    jsSub plain (idx : Int) ((extendEnd plain idx : Nat) : Int) =
      (plain.drop idx).takeWhile printable := by
  have hsp : extendEnd plain idx = idx + ((plain.drop idx).takeWhile printable).length :=
    extendEndAux_spec plain (plain.length + 1) idx (by omega)
  rw [hsp, jsSub_natCast, List.drop_take, Nat.add_sub_cancel_left]
  exact (List.prefix_iff_eq_take.mp (List.takeWhile_prefix printable)).symm

/-- C6: in decryptChromiumCookieValue, once AES decryption of the (possibly
v10/v11-stripped) data yields a plaintext, the plaintext is scanned for the
first occurrence of the marker bytes "xoxd-": if no suffix of the plaintext
starts with the marker, the whole plaintext is returned UTF-8 decoded; if the
first such occurrence is at index idx, the candidate token is the run from idx
extending while bytes are printable ASCII (0x21..0x7E), and the result is its
percent-decoding, or the candidate unchanged when percent-decoding fails. -/
theorem C6_xoxd_token_extraction (aes : List Nat → Except Unit (List Nat))
    (encrypted plain : List Nat) (hne : encrypted.length ≠ 0)
    (hdec : aes (if jsSub encrypted 0 3 = [0x76, 0x31, 0x30] ∨
        jsSub encrypted 0 3 = [0x76, 0x31, 0x31] then
        jsSub encrypted 3 encrypted.length else encrypted) = .ok plain) :
    ((∀ j, ¬ xoxdMarker <+: plain.drop j) →
      decryptChromiumCookieValue aes encrypted = .ok (utf8LossyDecode plain)) ∧
    (∀ idx, xoxdMarker <+: plain.drop idx →
      (∀ j < idx, ¬ xoxdMarker <+: plain.drop j) →
      decryptChromiumCookieValue aes encrypted =
        .ok (match decodeURIComponentModel
            (utf8LossyDecode ((plain.drop idx).takeWhile printable)) with
          | .ok s => s
          | .error _ => utf8LossyDecode ((plain.drop idx).takeWhile printable))) := by
  constructor
  · intro habs
    have hnone : bufIndexOf plain xoxdMarker = none := bufIndexOf_eq_none habs
    unfold decryptChromiumCookieValue
    rw [if_neg hne]
    simp only [hdec, hnone]
  · intro idx hpre hmin
    have hsome : bufIndexOf plain xoxdMarker = some idx := bufIndexOf_eq_some hpre hmin
    unfold decryptChromiumCookieValue
    rw [if_neg hne]
    simp only [hdec, hsome, extendEnd_token]
    cases hdu : decodeURIComponentModel
        (utf8LossyDecode ((plain.drop idx).takeWhile printable)) with
    | ok s => simp [hdu]
    | error e => simp [hdu]

/-- Witness for C6: plaintext is one junk byte, then the marker followed by
the percent-encoded token "A%2B", then a space; the result is the decoded
token "xoxd-A+". -/
theorem C6_witness :
    decryptChromiumCookieValue
      (fun _ => .ok [0x41, 0x78, 0x6f, 0x78, 0x64, 0x2d, 0x41, 0x25, 0x32, 0x42, 0x20])
      [1, 2, 3] = .ok [0x78, 0x6f, 0x78, 0x64, 0x2d, 0x41, 0x2b] := by
  have h := (C6_xoxd_token_extraction
      (fun _ => .ok [0x41, 0x78, 0x6f, 0x78, 0x64, 0x2d, 0x41, 0x25, 0x32, 0x42, 0x20])
      [1, 2, 3] [0x41, 0x78, 0x6f, 0x78, 0x64, 0x2d, 0x41, 0x25, 0x32, 0x42, 0x20]
      (by decide) rfl).2 1 (by decide)
      (fun j hj => by
        obtain rfl : j = 0 := by omega
        decide)
  exact h.trans (by decide)

end AgentSlack
